import Mathlib

/-!
Verification of the position-reconstruction engine of the
backpack-exchange-reads repository (src/analysis module:
`PositionReconstructor.reconstructPositions` and
`PositionReconstructor.createCompletedPosition`).

The engine is embedded shallowly: the decimal quantity/price/fee strings
are modelled by their exact rational values (the normalization boundary
parses them before the engine runs), timestamps by natural numbers
(milliseconds), the JS `Map` insertion-order semantics by an
association list in insertion order, and `Array.prototype.sort` (stable
as of ES2019) by a stable insertion sort on the comparator key.  The
wall-clock instant that `new Date()` would return inside
`createCompletedPosition` (the `entryTime || new Date()` and
`exitTime || new Date()` fallbacks) is passed in explicitly as a `now`
parameter, so the code's hidden dependence on the clock is visible in
the model.
-/

namespace BackpackReads

/-- Order side of a fill: `Bid` (buy) or `Ask` (sell), from
`BackpackFill.side` in src/types.ts. -/
inductive Side where
  | Bid
  | Ask
deriving DecidableEq, Repr

/-- Whether a side is `Bid`; mirrors the `fill.side === 'Bid'` tests. -/
def Side.isBid : Side → Bool
  | Side.Bid => true
  | Side.Ask => false

/-- Direction of a completed position (`'Long' | 'Short'`). -/
inductive PosSide where
  | Long
  | Short
deriving DecidableEq, Repr

/-- `BackpackFill` (src/types.ts), restricted to the fields the engine
reads.  `quantity`, `price` and `fee` hold the exact values of the
decimal strings the API delivers (`parseFloat` happens at the boundary),
`timestamp` is in milliseconds. -/
structure BackpackFill where
  symbol : String
  side : Side
  quantity : ℚ
  price : ℚ
  fee : ℚ
  timestamp : ℕ
deriving DecidableEq, Repr

/-- `CompletedPosition` (src analysis module). -/
structure CompletedPosition where
  id : ℕ
  symbol : String
  side : PosSide
  size : ℚ
  notionalValue : ℚ
  entryPrice : ℚ
  exitPrice : ℚ
  entryTime : ℕ
  exitTime : ℕ
  duration : String
  realizedPnl : ℚ
  realizedPnlPercent : ℚ
  totalFees : ℚ
  leverage : String
  collateral : String
  fills : List BackpackFill
deriving DecidableEq, Repr

/-- `PositionReconstructor.EPSILON = 0.0000001`. -/
def EPSILON : ℚ := 1 / 10000000

/-- `PositionReconstructor.formatDuration`: JS `Math.floor` is floor
division (`Int.fdiv`), JS `%` is truncating remainder (`Int.tmod`). -/
def formatDuration (milliseconds : ℤ) : String :=
  let seconds := Int.fdiv milliseconds 1000
  let minutes := Int.fdiv seconds 60
  let hours := Int.fdiv minutes 60
  let days := Int.fdiv hours 24
  if 0 < days then
    toString days ++ " day" ++ (if 1 < days then "s" else "") ++ " " ++
      toString (Int.tmod hours 24) ++ " hour" ++
      (if Int.tmod hours 24 ≠ 1 then "s" else "")
  else if 0 < hours then
    toString hours ++ " hour" ++ (if 1 < hours then "s" else "") ++ " " ++
      toString (Int.tmod minutes 60) ++ " min" ++
      (if Int.tmod minutes 60 ≠ 1 then "s" else "")
  else if 0 < minutes then
    toString minutes ++ " min" ++ (if 1 < minutes then "s" else "") ++ " " ++
      toString (Int.tmod seconds 60) ++ " sec" ++
      (if Int.tmod seconds 60 ≠ 1 then "s" else "")
  else
    toString seconds ++ " second" ++ (if seconds ≠ 1 then "s" else "")

/-- Accumulator of the single pass over a segment inside
`createCompletedPosition` (the `for (const fill of fills)` loop). -/
structure BuildAcc where
  totalBuyValue : ℚ
  totalSellValue : ℚ
  totalBuyQuantity : ℚ
  totalSellQuantity : ℚ
  totalFees : ℚ
  entryTime : Option ℕ
  exitTime : Option ℕ
deriving DecidableEq, Repr

/-- The `entryTime` update of the loop.  `opening` says whether the
current branch is on the direction-opening side; the JS condition
`!entryTime || (opening && (!entryTime || timestamp < entryTime))`
collapses to this by short-circuiting. -/
def entryUpdate (opening : Bool) (cur : Option ℕ) (ts : ℕ) : Option ℕ :=
  match cur with
  | none => some ts
  | some t => if opening ∧ ts < t then some ts else some t

/-- One iteration of the `createCompletedPosition` loop. -/
def buildStep (isLongPosition : Bool) (acc : BuildAcc) (fill : BackpackFill) :
    BuildAcc :=
  let acc1 := { acc with totalFees := acc.totalFees + fill.fee }
  match fill.side with
  | Side.Bid =>
    { acc1 with
      totalBuyValue := acc1.totalBuyValue + fill.price * fill.quantity,
      totalBuyQuantity := acc1.totalBuyQuantity + fill.quantity,
      entryTime := entryUpdate isLongPosition acc1.entryTime fill.timestamp,
      exitTime := if isLongPosition then acc1.exitTime else some fill.timestamp }
  | Side.Ask =>
    { acc1 with
      totalSellValue := acc1.totalSellValue + fill.price * fill.quantity,
      totalSellQuantity := acc1.totalSellQuantity + fill.quantity,
      entryTime := entryUpdate (!isLongPosition) acc1.entryTime fill.timestamp,
      exitTime := if isLongPosition then some fill.timestamp else acc1.exitTime }

/-- The whole accumulation pass of `createCompletedPosition`. -/
def buildAcc (isLongPosition : Bool) (fills : List BackpackFill) : BuildAcc :=
  fills.foldl (buildStep isLongPosition) ⟨0, 0, 0, 0, 0, none, none⟩

/-- Body of `createCompletedPosition` for a non-empty fill list
(`fills = firstFill :: rest`); `now` is the wall-clock instant the JS
code would read through `new Date()` in the `entryTime || new Date()`
and `exitTime || new Date()` fallbacks. -/
def buildPosition (id : ℕ) (firstFill : BackpackFill)
    (rest : List BackpackFill) (now : ℕ) : CompletedPosition :=
  let fills := firstFill :: rest
  let isLongPosition := firstFill.side.isBid
  let acc := buildAcc isLongPosition fills
  let avgBuyPrice :=
    if 0 < acc.totalBuyQuantity then acc.totalBuyValue / acc.totalBuyQuantity
    else 0
  let avgSellPrice :=
    if 0 < acc.totalSellQuantity then acc.totalSellValue / acc.totalSellQuantity
    else 0
  let size := min acc.totalBuyQuantity acc.totalSellQuantity
  let entryPrice := if isLongPosition then avgBuyPrice else avgSellPrice
  let exitPrice := if isLongPosition then avgSellPrice else avgBuyPrice
  let notionalValue := size * entryPrice
  let realizedPnl :=
    if isLongPosition then (exitPrice - entryPrice) * size
    else (entryPrice - exitPrice) * size
  let realizedPnlPercent :=
    if 0 < notionalValue then realizedPnl / notionalValue * 100 else 0
  let duration :=
    match acc.entryTime, acc.exitTime with
    | some e, some x => formatDuration ((x : ℤ) - (e : ℤ))
    | _, _ => "Unknown"
  { id := id,
    symbol := firstFill.symbol,
    side := if isLongPosition then PosSide.Long else PosSide.Short,
    size := size,
    notionalValue := notionalValue,
    entryPrice := entryPrice,
    exitPrice := exitPrice,
    entryTime := acc.entryTime.getD now,
    exitTime := acc.exitTime.getD now,
    duration := duration,
    realizedPnl := realizedPnl,
    realizedPnlPercent := realizedPnlPercent,
    totalFees := acc.totalFees,
    leverage := "N/A",
    collateral := "N/A",
    fills := fills }

/-- `PositionReconstructor.createCompletedPosition` (returns `null` on an
empty segment). -/
def createCompletedPosition (id : ℕ) (fills : List BackpackFill) (now : ℕ) :
    Option CompletedPosition :=
  match fills with
  | [] => none
  | firstFill :: rest => some (buildPosition id firstFill rest now)

/-- `SymbolPosition`: the per-symbol ledger of the scan. -/
structure SymbolPosition where
  symbol : String
  netQuantity : ℚ
  openFills : List BackpackFill
  completedPositions : List CompletedPosition
deriving DecidableEq, Repr

/-- The signed quantity a fill contributes to its symbol's net quantity
(`+quantity` for Bid, `-quantity` for Ask). -/
def signedQty (f : BackpackFill) : ℚ :=
  match f.side with
  | Side.Bid => f.quantity
  | Side.Ask => -f.quantity

/-- The per-fill ledger update of `reconstructPositions`: push the fill,
update the net quantity, and on `|net| < EPSILON` close the segment
(create a position with the next id and reset the ledger). -/
def stepLedger (now : ℕ) (counter : ℕ) (sp : SymbolPosition)
    (fill : BackpackFill) : SymbolPosition × ℕ :=
  let openFills := sp.openFills ++ [fill]
  let net := sp.netQuantity + signedQty fill
  if |net| < EPSILON then
    ({ sp with
        completedPositions :=
          sp.completedPositions ++
            (createCompletedPosition counter openFills now).toList,
        openFills := [],
        netQuantity := 0 },
      counter + 1)
  else
    ({ sp with openFills := openFills, netQuantity := net }, counter)

/-- A fresh ledger, as initialized on first sight of a symbol. -/
def emptyLedger (symbol : String) : SymbolPosition :=
  { symbol := symbol, netQuantity := 0, openFills := [],
    completedPositions := [] }

/-- `symbolPositions.has(symbol)`. -/
def hasLedger (ledgers : List SymbolPosition) (symbol : String) : Bool :=
  ledgers.any (fun sp => decide (sp.symbol = symbol))

/-- Lazy creation of a symbol's ledger; a JS `Map` appends new keys in
insertion order. -/
def getOrInit (ledgers : List SymbolPosition) (symbol : String) :
    List SymbolPosition :=
  if hasLedger ledgers symbol then ledgers else ledgers ++ [emptyLedger symbol]

/-- Apply `stepLedger` to the (unique) ledger of the fill's symbol,
threading the global position-id counter. -/
def updateLedger (now : ℕ) (fill : BackpackFill) :
    List SymbolPosition → ℕ → List SymbolPosition × ℕ
  | [], counter => ([], counter)
  | sp :: rest, counter =>
    if sp.symbol = fill.symbol then
      let r := stepLedger now counter sp fill
      (r.1 :: rest, r.2)
    else
      let r := updateLedger now fill rest counter
      (sp :: r.1, r.2)

/-- State of the chronological scan: the ledgers in `Map` insertion
order plus the global `positionIdCounter`. -/
structure ScanState where
  ledgers : List SymbolPosition
  counter : ℕ
deriving DecidableEq, Repr

/-- Process one fill of the sorted sequence. -/
def processFill (now : ℕ) (st : ScanState) (fill : BackpackFill) : ScanState :=
  let ledgers := getOrInit st.ledgers fill.symbol
  let r := updateLedger now fill ledgers st.counter
  ⟨r.1, r.2⟩

/-- Chronological comparison used by the input sort. -/
def fillLE (a b : BackpackFill) : Prop := a.timestamp ≤ b.timestamp

instance : DecidableRel fillLE := fun a b => Nat.decLe a.timestamp b.timestamp

/-- `[...fills].sort((a, b) => ts(a) - ts(b))`: a stable sort by
timestamp. -/
def sortFills (fills : List BackpackFill) : List BackpackFill :=
  List.insertionSort fillLE fills

/-- Comparison of the final output sort (`a.entryTime - b.entryTime`). -/
def posLE (a b : CompletedPosition) : Prop := a.entryTime ≤ b.entryTime

instance : DecidableRel posLE := fun a b => Nat.decLe a.entryTime b.entryTime

/-- `allPositions.sort((a, b) => a.entryTime - b.entryTime)`. -/
def sortPositions (ps : List CompletedPosition) : List CompletedPosition :=
  List.insertionSort posLE ps

/-- A `symbolBreakdown` entry: `{ positions, pnl }`. -/
structure SymbolStats where
  positions : ℕ
  pnl : ℚ
deriving DecidableEq, Repr

/-- The `summary` part of `PositionAnalysis`. -/
structure Summary where
  totalPositions : ℕ
  totalPnl : ℚ
  totalFees : ℚ
  symbolBreakdown : List (String × SymbolStats)
deriving DecidableEq, Repr

/-- `PositionAnalysis`, the value `reconstructPositions` returns. -/
structure PositionAnalysis where
  completedPositions : List CompletedPosition
  summary : Summary
deriving DecidableEq, Repr

/-- The whole chronological scan over the already-sorted fills. -/
def scanFills (now : ℕ) (sortedFills : List BackpackFill) : ScanState :=
  sortedFills.foldl (processFill now) ⟨[], 1⟩

/-- `reduce((sum, p) => sum + p.realizedPnl, 0)`. -/
def pnlSum (ps : List CompletedPosition) : ℚ :=
  (ps.map (fun p => p.realizedPnl)).sum

/-- `reduce((sum, p) => sum + p.totalFees, 0)`. -/
def feeSum (ps : List CompletedPosition) : ℚ :=
  (ps.map (fun p => p.totalFees)).sum

/-- Everything `reconstructPositions` does after sorting the input:
scan, collect the per-symbol position lists in `Map` insertion order,
build the per-symbol breakdown, sort by entry time, and aggregate the
summary. -/
def reconstructSorted (now : ℕ) (sortedFills : List BackpackFill) :
    PositionAnalysis :=
  let final := scanFills now sortedFills
  let allPositions := (final.ledgers.map (fun sp => sp.completedPositions)).flatten
  let symbolBreakdown := final.ledgers.map (fun sp =>
    (sp.symbol,
      SymbolStats.mk sp.completedPositions.length (pnlSum sp.completedPositions)))
  let sorted := sortPositions allPositions
  { completedPositions := sorted,
    summary :=
      { totalPositions := sorted.length,
        totalPnl := pnlSum sorted,
        totalFees := feeSum sorted,
        symbolBreakdown := symbolBreakdown } }

/-- `PositionReconstructor.reconstructPositions`.  `now` is the
wall-clock instant (see `buildPosition`). -/
def reconstructPositions (now : ℕ) (fills : List BackpackFill) :
    PositionAnalysis :=
  reconstructSorted now (sortFills fills)

/-- Total quantity of the Bid (buy) fills of a list. -/
def buyQty (fills : List BackpackFill) : ℚ :=
  (fills.map (fun f => if f.side.isBid then f.quantity else 0)).sum

/-- Total quantity of the Ask (sell) fills of a list. -/
def sellQty (fills : List BackpackFill) : ℚ :=
  (fills.map (fun f => if f.side.isBid then 0 else f.quantity)).sum

/-- Total value (price times quantity) of the Bid fills of a list. -/
def buyValue (fills : List BackpackFill) : ℚ :=
  (fills.map (fun f => if f.side.isBid then f.price * f.quantity else 0)).sum

/-- Total value of the Ask fills of a list. -/
def sellValue (fills : List BackpackFill) : ℚ :=
  (fills.map (fun f => if f.side.isBid then 0 else f.price * f.quantity)).sum

/-- Total fee of a list of fills. -/
def totalFee (fills : List BackpackFill) : ℚ :=
  (fills.map (fun f => f.fee)).sum

/-- Signed quantity sum of a fill list (the net quantity it would give
a fresh ledger). -/
def signedSum (fills : List BackpackFill) : ℚ := (fills.map signedQty).sum

/-- A fill with its fee replaced by zero (used to state that fees never
enter the PnL computation). -/
def zeroFee (f : BackpackFill) : BackpackFill := { f with fee := 0 }

section BuildAccLemmas

lemma foldl_buildStep_totalBuyQuantity (b : Bool) (fills : List BackpackFill) :
    ∀ acc : BuildAcc,
      (fills.foldl (buildStep b) acc).totalBuyQuantity =
        acc.totalBuyQuantity + buyQty fills := by
  induction fills with
  | nil => intro acc; simp [buyQty]
  | cons f fs ih =>
    intro acc
    rw [List.foldl_cons, ih]
    cases h : f.side <;>
      simp [buildStep, h, buyQty, Side.isBid] <;> ring

lemma foldl_buildStep_totalSellQuantity (b : Bool) (fills : List BackpackFill) :
    ∀ acc : BuildAcc,
      (fills.foldl (buildStep b) acc).totalSellQuantity =
        acc.totalSellQuantity + sellQty fills := by
  induction fills with
  | nil => intro acc; simp [sellQty]
  | cons f fs ih =>
    intro acc
    rw [List.foldl_cons, ih]
    cases h : f.side <;>
      simp [buildStep, h, sellQty, Side.isBid] <;> ring

lemma foldl_buildStep_totalBuyValue (b : Bool) (fills : List BackpackFill) :
    ∀ acc : BuildAcc,
      (fills.foldl (buildStep b) acc).totalBuyValue =
        acc.totalBuyValue + buyValue fills := by
  induction fills with
  | nil => intro acc; simp [buyValue]
  | cons f fs ih =>
    intro acc
    rw [List.foldl_cons, ih]
    cases h : f.side <;>
      simp [buildStep, h, buyValue, Side.isBid] <;> ring

lemma foldl_buildStep_totalSellValue (b : Bool) (fills : List BackpackFill) :
    ∀ acc : BuildAcc,
      (fills.foldl (buildStep b) acc).totalSellValue =
        acc.totalSellValue + sellValue fills := by
  induction fills with
  | nil => intro acc; simp [sellValue]
  | cons f fs ih =>
    intro acc
    rw [List.foldl_cons, ih]
    cases h : f.side <;>
      simp [buildStep, h, sellValue, Side.isBid] <;> ring

lemma foldl_buildStep_totalFees (b : Bool) (fills : List BackpackFill) :
    ∀ acc : BuildAcc,
      (fills.foldl (buildStep b) acc).totalFees = acc.totalFees + totalFee fills := by
  induction fills with
  | nil => intro acc; simp [totalFee]
  | cons f fs ih =>
    intro acc
    rw [List.foldl_cons, ih]
    cases h : f.side <;>
      simp [buildStep, h, totalFee, Side.isBid] <;> ring

lemma buildAcc_totalBuyQuantity (b : Bool) (fills : List BackpackFill) :
    (buildAcc b fills).totalBuyQuantity = buyQty fills := by
  rw [buildAcc, foldl_buildStep_totalBuyQuantity]; simp

lemma buildAcc_totalSellQuantity (b : Bool) (fills : List BackpackFill) :
    (buildAcc b fills).totalSellQuantity = sellQty fills := by
  rw [buildAcc, foldl_buildStep_totalSellQuantity]; simp

lemma buildAcc_totalBuyValue (b : Bool) (fills : List BackpackFill) :
    (buildAcc b fills).totalBuyValue = buyValue fills := by
  rw [buildAcc, foldl_buildStep_totalBuyValue]; simp

lemma buildAcc_totalSellValue (b : Bool) (fills : List BackpackFill) :
    (buildAcc b fills).totalSellValue = sellValue fills := by
  rw [buildAcc, foldl_buildStep_totalSellValue]; simp

lemma buildAcc_totalFees (b : Bool) (fills : List BackpackFill) :
    (buildAcc b fills).totalFees = totalFee fills := by
  rw [buildAcc, foldl_buildStep_totalFees]; simp

end BuildAccLemmas

section SumLemmas

lemma buyQty_nonneg {fills : List BackpackFill}
    (h : ∀ f ∈ fills, 0 ≤ f.quantity) : 0 ≤ buyQty fills := by
  refine List.sum_nonneg ?_
  intro x hx
  obtain ⟨f, hf, rfl⟩ := List.mem_map.mp hx
  by_cases hb : f.side.isBid <;> simp [hb, h f hf]

lemma sellQty_nonneg {fills : List BackpackFill}
    (h : ∀ f ∈ fills, 0 ≤ f.quantity) : 0 ≤ sellQty fills := by
  refine List.sum_nonneg ?_
  intro x hx
  obtain ⟨f, hf, rfl⟩ := List.mem_map.mp hx
  by_cases hb : f.side.isBid <;> simp [hb, h f hf]

lemma buyValue_nonneg {fills : List BackpackFill}
    (h : ∀ f ∈ fills, 0 ≤ f.quantity ∧ 0 ≤ f.price) : 0 ≤ buyValue fills := by
  refine List.sum_nonneg ?_
  intro x hx
  obtain ⟨f, hf, rfl⟩ := List.mem_map.mp hx
  by_cases hb : f.side.isBid <;>
    simp [hb, mul_nonneg (h f hf).2 (h f hf).1]

lemma sellValue_nonneg {fills : List BackpackFill}
    (h : ∀ f ∈ fills, 0 ≤ f.quantity ∧ 0 ≤ f.price) : 0 ≤ sellValue fills := by
  refine List.sum_nonneg ?_
  intro x hx
  obtain ⟨f, hf, rfl⟩ := List.mem_map.mp hx
  by_cases hb : f.side.isBid <;>
    simp [hb, mul_nonneg (h f hf).2 (h f hf).1]

lemma signedSum_eq_buy_sub_sell (fills : List BackpackFill) :
    signedSum fills = buyQty fills - sellQty fills := by
  induction fills with
  | nil => simp [signedSum, buyQty, sellQty]
  | cons f fs ih =>
    cases h : f.side <;>
      simp [signedSum, buyQty, sellQty, signedQty, h, Side.isBid] at ih ⊢ <;>
      rw [ih] <;> ring

lemma buyQty_map_zeroFee (fills : List BackpackFill) :
    buyQty (fills.map zeroFee) = buyQty fills := by
  simp only [buyQty, List.map_map]
  congr 1

lemma sellQty_map_zeroFee (fills : List BackpackFill) :
    sellQty (fills.map zeroFee) = sellQty fills := by
  simp only [sellQty, List.map_map]
  congr 1

lemma buyValue_map_zeroFee (fills : List BackpackFill) :
    buyValue (fills.map zeroFee) = buyValue fills := by
  simp only [buyValue, List.map_map]
  congr 1

lemma sellValue_map_zeroFee (fills : List BackpackFill) :
    sellValue (fills.map zeroFee) = sellValue fills := by
  simp only [sellValue, List.map_map]
  congr 1

/-- The guarded average collapses to plain division whenever the
denominator is nonnegative (rational division by zero is zero, matching
the code's `0` guard). -/
lemma guarded_avg_eq_div (V Q : ℚ) (h : 0 ≤ Q) :
    (if 0 < Q then V / Q else 0) = V / Q := by
  rcases lt_or_eq_of_le h with hlt | heq
  · rw [if_pos hlt]
  · rw [if_neg (by rw [← heq]; exact lt_irrefl 0), ← heq, div_zero]

end SumLemmas

section BuildPositionLemmas

lemma buildPosition_size (id' : ℕ) (f : BackpackFill) (r : List BackpackFill)
    (now : ℕ) :
    (buildPosition id' f r now).size = min (buyQty (f :: r)) (sellQty (f :: r)) := by
  show min (buildAcc f.side.isBid (f :: r)).totalBuyQuantity
      (buildAcc f.side.isBid (f :: r)).totalSellQuantity = _
  rw [buildAcc_totalBuyQuantity, buildAcc_totalSellQuantity]

lemma buildPosition_totalFees (id' : ℕ) (f : BackpackFill)
    (r : List BackpackFill) (now : ℕ) :
    (buildPosition id' f r now).totalFees = totalFee (f :: r) := by
  show (buildAcc f.side.isBid (f :: r)).totalFees = _
  rw [buildAcc_totalFees]

lemma buildPosition_fills (id' : ℕ) (f : BackpackFill) (r : List BackpackFill)
    (now : ℕ) : (buildPosition id' f r now).fills = f :: r := rfl

lemma buildPosition_symbol (id' : ℕ) (f : BackpackFill) (r : List BackpackFill)
    (now : ℕ) : (buildPosition id' f r now).symbol = f.symbol := rfl

lemma buildPosition_id (id' : ℕ) (f : BackpackFill) (r : List BackpackFill)
    (now : ℕ) : (buildPosition id' f r now).id = id' := rfl

lemma buildPosition_entryPrice (id' : ℕ) (f : BackpackFill)
    (r : List BackpackFill) (now : ℕ) :
    (buildPosition id' f r now).entryPrice =
      if f.side.isBid then
        (if 0 < buyQty (f :: r) then buyValue (f :: r) / buyQty (f :: r) else 0)
      else
        (if 0 < sellQty (f :: r) then sellValue (f :: r) / sellQty (f :: r) else 0) := by
  show (if f.side.isBid then
      (if 0 < (buildAcc f.side.isBid (f :: r)).totalBuyQuantity then
        (buildAcc f.side.isBid (f :: r)).totalBuyValue /
          (buildAcc f.side.isBid (f :: r)).totalBuyQuantity else 0)
    else
      (if 0 < (buildAcc f.side.isBid (f :: r)).totalSellQuantity then
        (buildAcc f.side.isBid (f :: r)).totalSellValue /
          (buildAcc f.side.isBid (f :: r)).totalSellQuantity else 0)) = _
  rw [buildAcc_totalBuyQuantity, buildAcc_totalSellQuantity,
    buildAcc_totalBuyValue, buildAcc_totalSellValue]

lemma buildPosition_exitPrice (id' : ℕ) (f : BackpackFill)
    (r : List BackpackFill) (now : ℕ) :
    (buildPosition id' f r now).exitPrice =
      if f.side.isBid then
        (if 0 < sellQty (f :: r) then sellValue (f :: r) / sellQty (f :: r) else 0)
      else
        (if 0 < buyQty (f :: r) then buyValue (f :: r) / buyQty (f :: r) else 0) := by
  show (if f.side.isBid then
      (if 0 < (buildAcc f.side.isBid (f :: r)).totalSellQuantity then
        (buildAcc f.side.isBid (f :: r)).totalSellValue /
          (buildAcc f.side.isBid (f :: r)).totalSellQuantity else 0)
    else
      (if 0 < (buildAcc f.side.isBid (f :: r)).totalBuyQuantity then
        (buildAcc f.side.isBid (f :: r)).totalBuyValue /
          (buildAcc f.side.isBid (f :: r)).totalBuyQuantity else 0)) = _
  rw [buildAcc_totalBuyQuantity, buildAcc_totalSellQuantity,
    buildAcc_totalBuyValue, buildAcc_totalSellValue]

lemma buildPosition_notionalValue (id' : ℕ) (f : BackpackFill)
    (r : List BackpackFill) (now : ℕ) :
    (buildPosition id' f r now).notionalValue =
      (buildPosition id' f r now).size * (buildPosition id' f r now).entryPrice := rfl

lemma buildPosition_realizedPnl (id' : ℕ) (f : BackpackFill)
    (r : List BackpackFill) (now : ℕ) :
    (buildPosition id' f r now).realizedPnl =
      if f.side.isBid then
        ((buildPosition id' f r now).exitPrice -
          (buildPosition id' f r now).entryPrice) * (buildPosition id' f r now).size
      else
        ((buildPosition id' f r now).entryPrice -
          (buildPosition id' f r now).exitPrice) * (buildPosition id' f r now).size := rfl

lemma buildPosition_realizedPnlPercent (id' : ℕ) (f : BackpackFill)
    (r : List BackpackFill) (now : ℕ) :
    (buildPosition id' f r now).realizedPnlPercent =
      if 0 < (buildPosition id' f r now).notionalValue then
        (buildPosition id' f r now).realizedPnl /
          (buildPosition id' f r now).notionalValue * 100
      else 0 := rfl

end BuildPositionLemmas

/-- C1: for every closed segment (a non-empty fill list `first :: rest`
handed to the builder) the produced `CompletedPosition` has
`realizedPnl = (exitPrice - entryPrice) * size` when the first fill's
side is `Bid` (Long) and `(entryPrice - exitPrice) * size` when it is
`Ask` (Short); fees are accumulated only into `totalFees` and never
subtracted from `realizedPnl` (zeroing every fee leaves `realizedPnl`
unchanged). -/
theorem C1_realized_pnl_formula (id' : ℕ) (first : BackpackFill)
    (rest : List BackpackFill) (now : ℕ) :
    (first.side = Side.Bid →
      (buildPosition id' first rest now).realizedPnl =
        ((buildPosition id' first rest now).exitPrice -
          (buildPosition id' first rest now).entryPrice) *
          (buildPosition id' first rest now).size) ∧
    (first.side = Side.Ask →
      (buildPosition id' first rest now).realizedPnl =
        ((buildPosition id' first rest now).entryPrice -
          (buildPosition id' first rest now).exitPrice) *
          (buildPosition id' first rest now).size) ∧
    (buildPosition id' first rest now).totalFees = totalFee (first :: rest) ∧
    (buildPosition id' (zeroFee first) (rest.map zeroFee) now).realizedPnl =
      (buildPosition id' first rest now).realizedPnl := by
  refine ⟨?_, ?_, buildPosition_totalFees id' first rest now, ?_⟩
  · intro h
    rw [buildPosition_realizedPnl, if_pos (by rw [h]; rfl)]
  · intro h
    rw [buildPosition_realizedPnl, if_neg (by rw [h]; simp [Side.isBid])]
  · have hside : (zeroFee first).side = first.side := rfl
    have hmap : zeroFee first :: rest.map zeroFee = (first :: rest).map zeroFee := rfl
    rw [buildPosition_realizedPnl, buildPosition_realizedPnl,
      buildPosition_entryPrice, buildPosition_entryPrice,
      buildPosition_exitPrice, buildPosition_exitPrice,
      buildPosition_size, buildPosition_size, hside, hmap,
      buyQty_map_zeroFee, sellQty_map_zeroFee, buyValue_map_zeroFee,
      sellValue_map_zeroFee]

/-- C1 witness: a concrete long round trip instantiating
`C1_realized_pnl_formula`. -/
theorem C1_realized_pnl_formula_witness :
    (buildPosition 1 ⟨"BTC_USDC_PERP", Side.Bid, 1, 100, 1/10, 100⟩
        [⟨"BTC_USDC_PERP", Side.Ask, 1, 110, 1/10, 200⟩] 0).realizedPnl =
      ((buildPosition 1 ⟨"BTC_USDC_PERP", Side.Bid, 1, 100, 1/10, 100⟩
          [⟨"BTC_USDC_PERP", Side.Ask, 1, 110, 1/10, 200⟩] 0).exitPrice -
        (buildPosition 1 ⟨"BTC_USDC_PERP", Side.Bid, 1, 100, 1/10, 100⟩
          [⟨"BTC_USDC_PERP", Side.Ask, 1, 110, 1/10, 200⟩] 0).entryPrice) *
        (buildPosition 1 ⟨"BTC_USDC_PERP", Side.Bid, 1, 100, 1/10, 100⟩
          [⟨"BTC_USDC_PERP", Side.Ask, 1, 110, 1/10, 200⟩] 0).size :=
  (C1_realized_pnl_formula 1 ⟨"BTC_USDC_PERP", Side.Bid, 1, 100, 1/10, 100⟩
    [⟨"BTC_USDC_PERP", Side.Ask, 1, 110, 1/10, 200⟩] 0).1 rfl

/-- C2: for every closed segment whose quantities are nonnegative (the
data model guarantees positive quantities), `entryPrice` is the
value-weighted average price of the fills on the direction-opening side
(`Bid` for a Long, `Ask` for a Short) and `exitPrice` the value-weighted
average price of the opposite side.  Rational division by zero is zero,
which coincides with the code's `0` guard for an empty side. -/
theorem C2_weighted_average_prices (id' : ℕ) (first : BackpackFill)
    (rest : List BackpackFill) (now : ℕ)
    (hq : ∀ f ∈ first :: rest, 0 ≤ f.quantity) :
    (first.side = Side.Bid →
      (buildPosition id' first rest now).entryPrice =
        buyValue (first :: rest) / buyQty (first :: rest) ∧
      (buildPosition id' first rest now).exitPrice =
        sellValue (first :: rest) / sellQty (first :: rest)) ∧
    (first.side = Side.Ask →
      (buildPosition id' first rest now).entryPrice =
        sellValue (first :: rest) / sellQty (first :: rest) ∧
      (buildPosition id' first rest now).exitPrice =
        buyValue (first :: rest) / buyQty (first :: rest)) := by
  have hb : 0 ≤ buyQty (first :: rest) := buyQty_nonneg hq
  have hs : 0 ≤ sellQty (first :: rest) := sellQty_nonneg hq
  constructor
  · intro h
    have hbid : first.side.isBid = true := by rw [h]; rfl
    rw [buildPosition_entryPrice, buildPosition_exitPrice, if_pos hbid, if_pos hbid]
    exact ⟨guarded_avg_eq_div _ _ hb, guarded_avg_eq_div _ _ hs⟩
  · intro h
    have hbid : ¬ (first.side.isBid = true) := by rw [h]; simp [Side.isBid]
    rw [buildPosition_entryPrice, buildPosition_exitPrice, if_neg hbid, if_neg hbid]
    exact ⟨guarded_avg_eq_div _ _ hs, guarded_avg_eq_div _ _ hb⟩

/-- C2 witness: instantiating `C2_weighted_average_prices` on the
spec's short scenario (Sell 0.00037, Buy 0.00017, Buy 0.00020). -/
theorem C2_weighted_average_prices_witness :
    (buildPosition 1 ⟨"BTC_USDC_PERP", Side.Ask, 37/100000, 1035932/10, 0, 100⟩
        [⟨"BTC_USDC_PERP", Side.Bid, 17/100000, 1037766/10, 0, 200⟩,
         ⟨"BTC_USDC_PERP", Side.Bid, 2/10000, 103778, 0, 300⟩] 0).entryPrice =
      sellValue (⟨"BTC_USDC_PERP", Side.Ask, 37/100000, 1035932/10, 0, 100⟩ ::
          [⟨"BTC_USDC_PERP", Side.Bid, 17/100000, 1037766/10, 0, 200⟩,
           ⟨"BTC_USDC_PERP", Side.Bid, 2/10000, 103778, 0, 300⟩]) /
        sellQty (⟨"BTC_USDC_PERP", Side.Ask, 37/100000, 1035932/10, 0, 100⟩ ::
          [⟨"BTC_USDC_PERP", Side.Bid, 17/100000, 1037766/10, 0, 200⟩,
           ⟨"BTC_USDC_PERP", Side.Bid, 2/10000, 103778, 0, 300⟩]) :=
  ((C2_weighted_average_prices 1
      ⟨"BTC_USDC_PERP", Side.Ask, 37/100000, 1035932/10, 0, 100⟩
      [⟨"BTC_USDC_PERP", Side.Bid, 17/100000, 1037766/10, 0, 200⟩,
       ⟨"BTC_USDC_PERP", Side.Bid, 2/10000, 103778, 0, 300⟩] 0
      (by intro f hf; fin_cases hf <;> norm_num)).2 rfl).1

/-- C3 counterexample: a segment closed through the tolerance (net
quantity -5e-8, inside EPSILON = 1e-7, but not zero) yields a
`CompletedPosition` whose `size` (the min, 1) differs from the total
closing-side quantity (1 + 5e-8), refuting the claim that `size` equals
both side totals. -/
theorem C3_size_counterexample :
    ((reconstructPositions 0
        [⟨"BTC_USDC_PERP", Side.Bid, 1, 100, 0, 100⟩,
         ⟨"BTC_USDC_PERP", Side.Ask, 1 + 1/20000000, 100, 0, 200⟩]).completedPositions.map
      (fun p => (p.size, sellQty p.fills))) =
    [((1 : ℚ), 20000001/20000000)] ∧ (1 : ℚ) ≠ 20000001/20000000 := by
  constructor
  · norm_num [reconstructPositions, reconstructSorted, scanFills, sortFills,
      processFill, getOrInit, hasLedger, updateLedger, stepLedger,
      createCompletedPosition, buildPosition, buildAcc, buildStep, entryUpdate,
      signedQty, emptyLedger, EPSILON, sortPositions, pnlSum, feeSum, Side.isBid,
      List.insertionSort, List.orderedInsert, abs_lt, fillLE, posLE, sellQty]
  · norm_num

/-- C3 (amended): `size` always equals `min(openQty, closeQty)` (i.e.
`min(buyQty, sellQty)` of the segment), and it equals both the total
opening-side quantity and the total closing-side quantity whenever the
segment's signed quantities sum to exactly zero; when the segment closes
merely within the tolerance the two side totals may differ and `size` is
their minimum. -/
theorem C3_size_min_and_exact (id' : ℕ) (first : BackpackFill)
    (rest : List BackpackFill) (now : ℕ) :
    (buildPosition id' first rest now).size =
      min (buyQty (first :: rest)) (sellQty (first :: rest)) ∧
    (signedSum (first :: rest) = 0 →
      (buildPosition id' first rest now).size = buyQty (first :: rest) ∧
      (buildPosition id' first rest now).size = sellQty (first :: rest)) := by
  refine ⟨buildPosition_size id' first rest now, ?_⟩
  intro h0
  have heq : buyQty (first :: rest) = sellQty (first :: rest) := by
    have := signedSum_eq_buy_sub_sell (first :: rest)
    rw [h0] at this
    linarith
  rw [buildPosition_size, heq, min_self]
  exact ⟨rfl, rfl⟩

/-- C3 witness: instantiating `C3_size_min_and_exact` on an exact round
trip where size equals both side totals. -/
theorem C3_size_min_and_exact_witness :
    (buildPosition 1 ⟨"BTC_USDC_PERP", Side.Bid, 1, 100, 0, 100⟩
        [⟨"BTC_USDC_PERP", Side.Ask, 1, 110, 0, 200⟩] 0).size =
      buyQty (⟨"BTC_USDC_PERP", Side.Bid, 1, 100, 0, 100⟩ ::
        [⟨"BTC_USDC_PERP", Side.Ask, 1, 110, 0, 200⟩]) :=
  ((C3_size_min_and_exact 1 ⟨"BTC_USDC_PERP", Side.Bid, 1, 100, 0, 100⟩
      [⟨"BTC_USDC_PERP", Side.Ask, 1, 110, 0, 200⟩] 0).2
    (by norm_num [signedSum, signedQty])).1

/-- C9: for every closed segment with nonnegative quantities and prices
(the data model guarantees positive ones), `realizedPnlPercent` equals
`realizedPnl / notionalValue * 100` when `notionalValue` is nonzero and
exactly `0` when `notionalValue = 0`: the division is guarded (the code
only divides when `notionalValue > 0`, and nonnegativity makes the
`> 0` and `≠ 0` guards agree), so in exact arithmetic no division by
zero is ever performed. -/
theorem C9_pnl_percent_guarded (id' : ℕ) (first : BackpackFill)
    (rest : List BackpackFill) (now : ℕ)
    (h : ∀ f ∈ first :: rest, 0 ≤ f.quantity ∧ 0 ≤ f.price) :
    (buildPosition id' first rest now).realizedPnlPercent =
      if (buildPosition id' first rest now).notionalValue = 0 then 0
      else (buildPosition id' first rest now).realizedPnl /
        (buildPosition id' first rest now).notionalValue * 100 := by
  have hq : ∀ f ∈ first :: rest, 0 ≤ f.quantity := fun f hf => (h f hf).1
  have hsize : 0 ≤ (buildPosition id' first rest now).size := by
    rw [buildPosition_size]
    exact le_min (buyQty_nonneg hq) (sellQty_nonneg hq)
  have hentry : 0 ≤ (buildPosition id' first rest now).entryPrice := by
    rw [buildPosition_entryPrice]
    by_cases hb : first.side.isBid
    · rw [if_pos hb]
      by_cases hp : 0 < buyQty (first :: rest)
      · rw [if_pos hp]
        exact div_nonneg (buyValue_nonneg h) (le_of_lt hp)
      · rw [if_neg hp]
    · rw [if_neg hb]
      by_cases hp : 0 < sellQty (first :: rest)
      · rw [if_pos hp]
        exact div_nonneg (sellValue_nonneg h) (le_of_lt hp)
      · rw [if_neg hp]
  have hnot : 0 ≤ (buildPosition id' first rest now).notionalValue := by
    rw [buildPosition_notionalValue]
    exact mul_nonneg hsize hentry
  rw [buildPosition_realizedPnlPercent]
  rcases lt_or_eq_of_le hnot with hpos | hzero
  · rw [if_pos hpos, if_neg (ne_of_gt hpos)]
  · rw [if_neg (by rw [← hzero]; exact lt_irrefl 0), if_pos hzero.symm]

/-- C9 witness: a degenerate segment (single zero-quantity fill) has
`notionalValue = 0` and `realizedPnlPercent = 0`. -/
theorem C9_pnl_percent_guarded_witness :
    (buildPosition 1 ⟨"BTC_USDC_PERP", Side.Bid, 0, 100, 1/10, 100⟩ [] 0).realizedPnlPercent =
      if (buildPosition 1 ⟨"BTC_USDC_PERP", Side.Bid, 0, 100, 1/10, 100⟩ [] 0).notionalValue = 0
      then 0
      else (buildPosition 1 ⟨"BTC_USDC_PERP", Side.Bid, 0, 100, 1/10, 100⟩ [] 0).realizedPnl /
        (buildPosition 1 ⟨"BTC_USDC_PERP", Side.Bid, 0, 100, 1/10, 100⟩ [] 0).notionalValue * 100 :=
  C9_pnl_percent_guarded 1 ⟨"BTC_USDC_PERP", Side.Bid, 0, 100, 1/10, 100⟩ [] 0
    (by intro f hf; fin_cases hf <;> norm_num)

section StepLemmas

lemma epsilon_pos : (0 : ℚ) < EPSILON := by norm_num [EPSILON]

lemma create_toList_length (c : ℕ) (l : List BackpackFill) (x : BackpackFill)
    (now : ℕ) :
    ((createCompletedPosition c (l ++ [x]) now).toList).length = 1 := by
  cases l <;> rfl

end StepLemmas

/-- C4: during the scan a symbol's segment is closed exactly when the
net quantity right after applying a fill satisfies `|net| < EPSILON`
(EPSILON = 1e-7); a closure emits exactly one position.  A single fill
that moves the net quantity from one side of the tolerance band past
zero to the other side (overshoot, e.g. net +3 then a Sell of 8) does
not close the segment and is not split: the whole fill stays in the
buffer and no position is emitted. -/
theorem C4_closure_iff_epsilon (now counter : ℕ) (sp : SymbolPosition)
    (fill : BackpackFill) :
    ((stepLedger now counter sp fill).1.openFills = [] ↔
      |sp.netQuantity + signedQty fill| < EPSILON) ∧
    ((stepLedger now counter sp fill).1.completedPositions.length =
      sp.completedPositions.length +
        (if |sp.netQuantity + signedQty fill| < EPSILON then 1 else 0)) ∧
    (EPSILON ≤ sp.netQuantity →
      sp.netQuantity + signedQty fill ≤ -EPSILON →
      (stepLedger now counter sp fill).1.openFills = sp.openFills ++ [fill] ∧
      (stepLedger now counter sp fill).1.completedPositions =
        sp.completedPositions ∧
      (stepLedger now counter sp fill).1.netQuantity =
        sp.netQuantity + signedQty fill) ∧
    (sp.netQuantity ≤ -EPSILON →
      EPSILON ≤ sp.netQuantity + signedQty fill →
      (stepLedger now counter sp fill).1.openFills = sp.openFills ++ [fill] ∧
      (stepLedger now counter sp fill).1.completedPositions =
        sp.completedPositions ∧
      (stepLedger now counter sp fill).1.netQuantity =
        sp.netQuantity + signedQty fill) := by
  by_cases hc : |sp.netQuantity + signedQty fill| < EPSILON
  · refine ⟨?_, ?_, ?_, ?_⟩
    · simp [stepLedger, hc]
    · simp [stepLedger, hc, create_toList_length]
    · intro h1 h2
      exfalso
      have hn := neg_le_abs (sp.netQuantity + signedQty fill)
      linarith
    · intro h1 h2
      exfalso
      have hn := le_abs_self (sp.netQuantity + signedQty fill)
      linarith
  · refine ⟨?_, ?_, ?_, ?_⟩
    · simp [stepLedger, hc]
    · simp [stepLedger, hc]
    · intro h1 h2; simp [stepLedger, hc]
    · intro h1 h2; simp [stepLedger, hc]

/-- C4 witness: net +3, then a Sell of 8 (net -5): the segment stays
open, the fill is buffered whole. -/
theorem C4_closure_iff_epsilon_witness :
    (stepLedger 0 1 ⟨"SOL_USDC_PERP", 3, [], []⟩
        ⟨"SOL_USDC_PERP", Side.Ask, 8, 100, 0, 50⟩).1.openFills =
      [] ++ [⟨"SOL_USDC_PERP", Side.Ask, 8, 100, 0, 50⟩] ∧
    (stepLedger 0 1 ⟨"SOL_USDC_PERP", 3, [], []⟩
        ⟨"SOL_USDC_PERP", Side.Ask, 8, 100, 0, 50⟩).1.netQuantity = 3 + -8 := by
  have h := (C4_closure_iff_epsilon 0 1 ⟨"SOL_USDC_PERP", 3, [], []⟩
      ⟨"SOL_USDC_PERP", Side.Ask, 8, 100, 0, 50⟩).2.2.1
      (by norm_num [EPSILON]) (by norm_num [EPSILON, signedQty])
  refine ⟨h.1, ?_⟩
  rw [h.2.2]
  norm_num [signedQty]

/-- C10 (implicit): a fill whose quantity is below the tolerance
(e.g. quantity `0`) arriving while its symbol's ledger is flat
(net 0, empty buffer) immediately closes a degenerate one-fill segment:
the emitted `CompletedPosition` has that single fill, `size = 0`,
`realizedPnl = 0`, `realizedPnlPercent = 0` and `totalFees` equal to the
fill's fee, and a single-fill input shows it is counted in
`totalPositions` and in the summary's `totalFees` rather than staying
buffered.  (Quantities are nonnegative per the data model.) -/
theorem C10_flat_degenerate_fill (now counter : ℕ) (sp : SymbolPosition)
    (fill : BackpackFill)
    (hflat : sp.netQuantity = 0) (hbuf : sp.openFills = [])
    (hq0 : 0 ≤ fill.quantity) (hqe : fill.quantity < EPSILON) :
    stepLedger now counter sp fill =
      ({ sp with
          completedPositions :=
            sp.completedPositions ++ [buildPosition counter fill [] now],
          openFills := [], netQuantity := 0 }, counter + 1) ∧
    (buildPosition counter fill [] now).size = 0 ∧
    (buildPosition counter fill [] now).realizedPnl = 0 ∧
    (buildPosition counter fill [] now).realizedPnlPercent = 0 ∧
    (buildPosition counter fill [] now).totalFees = fill.fee ∧
    (buildPosition counter fill [] now).fills = [fill] ∧
    (reconstructPositions now [fill]).completedPositions =
      [buildPosition 1 fill [] now] ∧
    (reconstructPositions now [fill]).summary.totalPositions = 1 ∧
    (reconstructPositions now [fill]).summary.totalFees = fill.fee := by
  have habs : |signedQty fill| < EPSILON := by
    cases hs : fill.side <;>
      simp [signedQty, hs, abs_of_nonneg hq0, hqe]
  have hclose : |sp.netQuantity + signedQty fill| < EPSILON := by
    rw [hflat, zero_add]; exact habs
  have hsize : (buildPosition counter fill [] now).size = 0 := by
    rw [buildPosition_size]
    cases hs : fill.side
    · simp [buyQty, sellQty, Side.isBid, hs, min_eq_right hq0]
    · simp [buyQty, sellQty, Side.isBid, hs, min_eq_left hq0]
  have hpnl : (buildPosition counter fill [] now).realizedPnl = 0 := by
    rw [buildPosition_realizedPnl]
    by_cases hb : fill.side.isBid = true <;> simp [hb, hsize]
  have hnot : (buildPosition counter fill [] now).notionalValue = 0 := by
    rw [buildPosition_notionalValue, hsize, zero_mul]
  have hpct : (buildPosition counter fill [] now).realizedPnlPercent = 0 := by
    rw [buildPosition_realizedPnlPercent, hnot]
    simp
  have hfee : (buildPosition counter fill [] now).totalFees = fill.fee := by
    rw [buildPosition_totalFees]
    simp [totalFee]
  have hstep : stepLedger now counter sp fill =
      ({ sp with
          completedPositions :=
            sp.completedPositions ++ [buildPosition counter fill [] now],
          openFills := [], netQuantity := 0 }, counter + 1) := by
    simp [stepLedger, hclose, hbuf, createCompletedPosition]
  have hzero : |(0 : ℚ) + signedQty fill| < EPSILON := by
    rw [zero_add]; exact habs
  have hpipe : (reconstructPositions now [fill]).completedPositions =
      [buildPosition 1 fill [] now] ∧
      (reconstructPositions now [fill]).summary.totalPositions = 1 ∧
      (reconstructPositions now [fill]).summary.totalFees = fill.fee := by
    refine ⟨?_, ?_, ?_⟩ <;>
      simp [reconstructPositions, reconstructSorted, scanFills, sortFills,
        List.insertionSort, List.orderedInsert, processFill, getOrInit,
        hasLedger, emptyLedger, updateLedger, stepLedger, habs,
        createCompletedPosition, sortPositions, pnlSum, feeSum,
        buildPosition_totalFees, totalFee]
  exact ⟨hstep, hsize, hpnl, hpct, hfee, rfl, hpipe⟩

/-- C10 witness: a concrete zero-quantity Bid fill on a flat ledger. -/
theorem C10_flat_degenerate_fill_witness :
    (buildPosition 1 ⟨"BTC_USDC_PERP", Side.Bid, 0, 100, 1/10, 5⟩ [] 0).size = 0 ∧
    (reconstructPositions 0
        [⟨"BTC_USDC_PERP", Side.Bid, 0, 100, 1/10, 5⟩]).summary.totalPositions = 1 ∧
    (reconstructPositions 0
        [⟨"BTC_USDC_PERP", Side.Bid, 0, 100, 1/10, 5⟩]).summary.totalFees = 1/10 := by
  have h := C10_flat_degenerate_fill 0 1 (emptyLedger "BTC_USDC_PERP")
      ⟨"BTC_USDC_PERP", Side.Bid, 0, 100, 1/10, 5⟩ rfl rfl le_rfl
      (by norm_num [EPSILON])
  exact ⟨h.2.1, h.2.2.2.2.2.2.2.1, h.2.2.2.2.2.2.2.2⟩

section SortLemmas

/-- Strict chronological order on fills. -/
def fillLT (a b : BackpackFill) : Prop := a.timestamp < b.timestamp

instance : IsTotal BackpackFill fillLE :=
  ⟨fun a b => Nat.le_total a.timestamp b.timestamp⟩

instance : IsTrans BackpackFill fillLE :=
  ⟨fun _ _ _ h1 h2 => Nat.le_trans h1 h2⟩

instance : IsAntisymm BackpackFill fillLT :=
  ⟨fun _ _ h1 h2 => absurd h2 (Nat.lt_asymm h1)⟩

lemma sortFills_sorted (l : List BackpackFill) :
    List.Sorted fillLE (sortFills l) :=
  List.sorted_insertionSort fillLE l

lemma sortFills_perm (l : List BackpackFill) : (sortFills l).Perm l :=
  List.perm_insertionSort fillLE l

lemma sorted_lt_of_le_nodup {l : List BackpackFill}
    (hs : List.Sorted fillLE l)
    (hn : (l.map (fun f => f.timestamp)).Nodup) :
    List.Sorted fillLT l := by
  have hp : l.Pairwise (fun a b => a.timestamp ≠ b.timestamp) :=
    List.pairwise_map.mp hn
  exact (List.Pairwise.and hs hp).imp
    (fun h => lt_of_le_of_ne h.1 h.2)

/-- With pairwise-distinct timestamps the sorted copy of a fill multiset
is unique: sorting any permutation gives the same list. -/
lemma sortFills_eq_of_perm {l1 l2 : List BackpackFill} (hp : l1.Perm l2)
    (hn : (l1.map (fun f => f.timestamp)).Nodup) :
    sortFills l1 = sortFills l2 := by
  have h1 := sortFills_perm l1
  have h2 := sortFills_perm l2
  have hperm : (sortFills l1).Perm (sortFills l2) :=
    h1.trans (hp.trans h2.symm)
  have hn1 : ((sortFills l1).map (fun f => f.timestamp)).Nodup :=
    ((h1.map (fun f => f.timestamp)).nodup_iff).mpr hn
  have hn2' : (l2.map (fun f => f.timestamp)).Nodup :=
    ((hp.map (fun f => f.timestamp)).nodup_iff).mp hn
  have hn2 : ((sortFills l2).map (fun f => f.timestamp)).Nodup :=
    ((h2.map (fun f => f.timestamp)).nodup_iff).mpr hn2'
  exact List.eq_of_perm_of_sorted hperm
    (sorted_lt_of_le_nodup (sortFills_sorted l1) hn1)
    (sorted_lt_of_le_nodup (sortFills_sorted l2) hn2)

end SortLemmas

/-- C6: reconstruction is order independent: on any permutation of the
same fill multiset with pairwise-distinct timestamps (i.e. no timestamp
ties, the only case in which the claim asserts identity) the whole
`PositionAnalysis` result — in particular the `completedPositions` list
with every price, PnL, id and time — is identical, because the stably
sorted copy of the input is unique. -/
theorem C6_order_independence (now : ℕ) (l1 l2 : List BackpackFill)
    (hp : l1.Perm l2)
    (hts : (l1.map (fun f => f.timestamp)).Nodup) :
    reconstructPositions now l1 = reconstructPositions now l2 := by
  rw [reconstructPositions, reconstructPositions, sortFills_eq_of_perm hp hts]

/-- C6 witness: a concrete two-fill round trip fed in reversed order. -/
theorem C6_order_independence_witness :
    reconstructPositions 0
      [⟨"BTC_USDC_PERP", Side.Ask, 1, 110, 0, 200⟩,
       ⟨"BTC_USDC_PERP", Side.Bid, 1, 100, 0, 100⟩] =
    reconstructPositions 0
      [⟨"BTC_USDC_PERP", Side.Bid, 1, 100, 0, 100⟩,
       ⟨"BTC_USDC_PERP", Side.Ask, 1, 110, 0, 200⟩] :=
  C6_order_independence 0 _ _
    (List.Perm.swap (⟨"BTC_USDC_PERP", Side.Bid, 1, 100, 0, 100⟩ : BackpackFill)
      (⟨"BTC_USDC_PERP", Side.Ask, 1, 110, 0, 200⟩ : BackpackFill) [])
    (by simp)

section NowInvariance

lemma entryUpdate_isSome (b : Bool) (cur : Option ℕ) (ts : ℕ) :
    (entryUpdate b cur ts).isSome := by
  cases cur with
  | none => rfl
  | some t =>
    rw [entryUpdate]
    split <;> rfl

lemma buildStep_entry_isSome (b : Bool) (acc : BuildAcc) (f : BackpackFill) :
    (buildStep b acc f).entryTime.isSome := by
  cases hs : f.side <;> simp [buildStep, hs, entryUpdate_isSome]

lemma foldl_buildStep_entry_isSome (b : Bool) (l : List BackpackFill) :
    ∀ acc : BuildAcc, acc.entryTime.isSome →
      (l.foldl (buildStep b) acc).entryTime.isSome := by
  induction l with
  | nil => intro acc h; exact h
  | cons f fs ih =>
    intro acc _
    rw [List.foldl_cons]
    exact ih _ (buildStep_entry_isSome b acc f)

lemma buildAcc_entry_isSome (b : Bool) (first : BackpackFill)
    (rest : List BackpackFill) :
    (buildAcc b (first :: rest)).entryTime.isSome := by
  rw [buildAcc, List.foldl_cons]
  exact foldl_buildStep_entry_isSome b rest _
    (buildStep_entry_isSome b _ first)

lemma buildStep_exit_isSome_mono (b : Bool) (acc : BuildAcc)
    (f : BackpackFill) (h : acc.exitTime.isSome) :
    (buildStep b acc f).exitTime.isSome := by
  cases hs : f.side <;> cases b <;> simp [buildStep, hs, Side.isBid, h]

lemma buildStep_exit_isSome_set (b : Bool) (acc : BuildAcc)
    (f : BackpackFill) (h : f.side.isBid ≠ b) :
    (buildStep b acc f).exitTime.isSome := by
  cases hs : f.side <;> cases b <;>
    simp [Side.isBid, hs] at h ⊢ <;>
    simp [buildStep, hs, Side.isBid]

lemma foldl_buildStep_exit_isSome (b : Bool) (l : List BackpackFill) :
    ∀ acc : BuildAcc,
      (acc.exitTime.isSome ∨ ∃ f ∈ l, f.side.isBid ≠ b) →
      (l.foldl (buildStep b) acc).exitTime.isSome := by
  induction l with
  | nil =>
    intro acc h
    rcases h with h | ⟨f, hf, _⟩
    · exact h
    · exact absurd hf (List.not_mem_nil f)
  | cons f fs ih =>
    intro acc h
    rw [List.foldl_cons]
    apply ih
    by_cases hside : f.side.isBid = b
    · rcases h with h | ⟨g, hg, hgb⟩
      · exact Or.inl (buildStep_exit_isSome_mono b acc f h)
      · rcases List.mem_cons.mp hg with rfl | hg'
        · exact absurd hside hgb
        · exact Or.inr ⟨g, hg', hgb⟩
    · exact Or.inl (buildStep_exit_isSome_set b acc f hside)

/-- A segment that contains a fill on the non-`b` side determines its
exit time from the fills alone. -/
lemma buildAcc_exit_isSome (b : Bool) (fills : List BackpackFill)
    (h : ∃ f ∈ fills, f.side.isBid ≠ b) :
    (buildAcc b fills).exitTime.isSome :=
  foldl_buildStep_exit_isSome b fills _ (Or.inr h)

lemma buyQty_ge_head {first : BackpackFill} {rest : List BackpackFill}
    (hbid : first.side.isBid = true)
    (hq : ∀ f ∈ first :: rest, 0 ≤ f.quantity) :
    first.quantity ≤ buyQty (first :: rest) := by
  have hrest : 0 ≤ buyQty rest :=
    buyQty_nonneg (fun f hf => hq f (List.mem_cons_of_mem first hf))
  simp only [buyQty, List.map_cons, List.sum_cons, hbid, if_true]
  calc first.quantity = first.quantity + 0 := by ring
    _ ≤ first.quantity + buyQty rest := by
        exact add_le_add_left hrest first.quantity

lemma sellQty_ge_head {first : BackpackFill} {rest : List BackpackFill}
    (hask : first.side.isBid = false)
    (hq : ∀ f ∈ first :: rest, 0 ≤ f.quantity) :
    first.quantity ≤ sellQty (first :: rest) := by
  have hrest : 0 ≤ sellQty rest :=
    sellQty_nonneg (fun f hf => hq f (List.mem_cons_of_mem first hf))
  simp only [sellQty, List.map_cons, List.sum_cons, hask, if_false,
    Bool.false_eq_true]
  calc first.quantity = first.quantity + 0 := by ring
    _ ≤ first.quantity + sellQty rest := by
        exact add_le_add_left hrest first.quantity

lemma buyQty_eq_zero_of_all_ask {l : List BackpackFill}
    (h : ∀ f ∈ l, f.side.isBid = false) : buyQty l = 0 := by
  rw [buyQty]
  apply List.sum_eq_zero
  intro x hx
  obtain ⟨f, hf, rfl⟩ := List.mem_map.mp hx
  simp [h f hf]

lemma sellQty_eq_zero_of_all_bid {l : List BackpackFill}
    (h : ∀ f ∈ l, f.side.isBid = true) : sellQty l = 0 := by
  rw [sellQty]
  apply List.sum_eq_zero
  intro x hx
  obtain ⟨f, hf, rfl⟩ := List.mem_map.mp hx
  simp [h f hf]

/-- A segment whose quantities are all at least EPSILON can only close
(signed sum inside the tolerance) if it has fills on both sides, hence
in particular a fill on the closing side. -/
lemma exit_isSome_of_closure (first : BackpackFill) (rest : List BackpackFill)
    (hq : ∀ f ∈ first :: rest, EPSILON ≤ f.quantity)
    (hclose : |signedSum (first :: rest)| < EPSILON) :
    (buildAcc first.side.isBid (first :: rest)).exitTime.isSome := by
  apply buildAcc_exit_isSome
  by_contra hall
  push_neg at hall
  have hq0 : ∀ f ∈ first :: rest, 0 ≤ f.quantity :=
    fun f hf => le_trans (le_of_lt epsilon_pos) (hq f hf)
  have hfirst : EPSILON ≤ first.quantity := hq first (List.mem_cons_self first rest)
  cases hb : first.side.isBid with
  | true =>
    have hallbid : ∀ f ∈ first :: rest, f.side.isBid = true := by
      intro f hf
      have := hall f hf
      rw [hb] at this
      exact this
    have hsell : sellQty (first :: rest) = 0 := sellQty_eq_zero_of_all_bid hallbid
    have hbuy : first.quantity ≤ buyQty (first :: rest) := buyQty_ge_head hb hq0
    rw [signedSum_eq_buy_sub_sell, hsell, sub_zero] at hclose
    have habs := le_abs_self (buyQty (first :: rest))
    linarith
  | false =>
    have hallask : ∀ f ∈ first :: rest, f.side.isBid = false := by
      intro f hf
      have := hall f hf
      rw [hb] at this
      exact this
    have hbuy : buyQty (first :: rest) = 0 := buyQty_eq_zero_of_all_ask hallask
    have hsell : first.quantity ≤ sellQty (first :: rest) := sellQty_ge_head hb hq0
    rw [signedSum_eq_buy_sub_sell, hbuy, zero_sub] at hclose
    have habs := neg_le_abs (-sellQty (first :: rest))
    rw [neg_neg] at habs
    linarith

/-- When the segment determines both its entry and exit time, the built
position does not depend on the wall-clock fallback. -/
lemma buildPosition_now_invariant (id' : ℕ) (first : BackpackFill)
    (rest : List BackpackFill) (now1 now2 : ℕ)
    (hexit : (buildAcc first.side.isBid (first :: rest)).exitTime.isSome) :
    buildPosition id' first rest now1 = buildPosition id' first rest now2 := by
  obtain ⟨e, he⟩ := Option.isSome_iff_exists.mp
    (buildAcc_entry_isSome first.side.isBid first rest)
  obtain ⟨x, hx⟩ := Option.isSome_iff_exists.mp hexit
  simp only [buildPosition, he, hx, Option.getD_some]

lemma create_now_invariant (c : ℕ) (fills : List BackpackFill)
    (now1 now2 : ℕ)
    (hq : ∀ f ∈ fills, EPSILON ≤ f.quantity)
    (hclose : |signedSum fills| < EPSILON) :
    createCompletedPosition c fills now1 = createCompletedPosition c fills now2 := by
  cases fills with
  | nil => rfl
  | cons first rest =>
    rw [createCompletedPosition, createCompletedPosition]
    exact congrArg some (buildPosition_now_invariant c first rest now1 now2
      (exit_isSome_of_closure first rest hq hclose))

/-- The invariant the scan maintains on every ledger: buffered fills
come from the (quantity-bounded) input and the net quantity is their
signed sum. -/
def LedgerInv (sp : SymbolPosition) : Prop :=
  (∀ f ∈ sp.openFills, EPSILON ≤ f.quantity) ∧
    sp.netQuantity = signedSum sp.openFills

def StateInv (st : ScanState) : Prop := ∀ sp ∈ st.ledgers, LedgerInv sp

lemma signedSum_append (l : List BackpackFill) (x : BackpackFill) :
    signedSum (l ++ [x]) = signedSum l + signedQty x := by
  simp [signedSum]

lemma stepLedger_now_invariant (c : ℕ) (sp : SymbolPosition)
    (fill : BackpackFill) (now1 now2 : ℕ)
    (hsp : LedgerInv sp) (hf : EPSILON ≤ fill.quantity) :
    stepLedger now1 c sp fill = stepLedger now2 c sp fill ∧
    LedgerInv (stepLedger now1 c sp fill).1 := by
  have hbuf : ∀ f ∈ sp.openFills ++ [fill], EPSILON ≤ f.quantity := by
    intro f hf'
    rcases List.mem_append.mp hf' with h | h
    · exact hsp.1 f h
    · rw [List.mem_singleton.mp h]; exact hf
  have hnet : sp.netQuantity + signedQty fill =
      signedSum (sp.openFills ++ [fill]) := by
    rw [signedSum_append, hsp.2]
  by_cases hc : |sp.netQuantity + signedQty fill| < EPSILON
  · have hclose : |signedSum (sp.openFills ++ [fill])| < EPSILON := by
      rw [← hnet]; exact hc
    constructor
    · simp only [stepLedger, if_pos hc]
      rw [create_now_invariant c (sp.openFills ++ [fill]) now1 now2 hbuf hclose]
    · simp only [stepLedger, if_pos hc]
      exact ⟨fun f hf' => absurd hf' (List.not_mem_nil f), by simp [signedSum]⟩
  · constructor
    · simp only [stepLedger, if_neg hc]
    · simp only [stepLedger, if_neg hc]
      exact ⟨hbuf, hnet⟩

lemma updateLedger_now_invariant (fill : BackpackFill) (now1 now2 : ℕ)
    (hf : EPSILON ≤ fill.quantity) :
    ∀ (ledgers : List SymbolPosition) (c : ℕ),
      (∀ sp ∈ ledgers, LedgerInv sp) →
      updateLedger now1 fill ledgers c = updateLedger now2 fill ledgers c ∧
      ∀ sp ∈ (updateLedger now1 fill ledgers c).1, LedgerInv sp := by
  intro ledgers
  induction ledgers with
  | nil =>
    intro c _
    exact ⟨rfl, fun sp hsp => absurd hsp (List.not_mem_nil sp)⟩
  | cons sp rest ih =>
    intro c hinv
    by_cases hs : sp.symbol = fill.symbol
    · have hstep := stepLedger_now_invariant c sp fill now1 now2
        (hinv sp (List.mem_cons_self sp rest)) hf
      constructor
      · simp only [updateLedger, if_pos hs, hstep.1]
      · simp only [updateLedger, if_pos hs]
        intro sq hsq
        rcases List.mem_cons.mp hsq with rfl | h
        · exact hstep.2
        · exact hinv sq (List.mem_cons_of_mem sp h)
    · have hrest := ih c (fun sq hsq => hinv sq (List.mem_cons_of_mem sp hsq))
      constructor
      · simp only [updateLedger, if_neg hs, hrest.1]
      · simp only [updateLedger, if_neg hs]
        intro sq hsq
        rcases List.mem_cons.mp hsq with rfl | h
        · exact hinv sq (List.mem_cons_self sq rest)
        · exact hrest.2 sq h

lemma getOrInit_inv (ledgers : List SymbolPosition) (symbol : String)
    (h : ∀ sp ∈ ledgers, LedgerInv sp) :
    ∀ sp ∈ getOrInit ledgers symbol, LedgerInv sp := by
  rw [getOrInit]
  split
  · exact h
  · intro sp hsp
    rcases List.mem_append.mp hsp with h1 | h1
    · exact h sp h1
    · rw [List.mem_singleton.mp h1]
      exact ⟨fun f hf => absurd hf (List.not_mem_nil f), by simp [signedSum, emptyLedger]⟩

lemma processFill_now_invariant (st : ScanState) (fill : BackpackFill)
    (now1 now2 : ℕ) (hst : StateInv st) (hf : EPSILON ≤ fill.quantity) :
    processFill now1 st fill = processFill now2 st fill ∧
    StateInv (processFill now1 st fill) := by
  have hgi := getOrInit_inv st.ledgers fill.symbol hst
  have hupd := updateLedger_now_invariant fill now1 now2 hf
    (getOrInit st.ledgers fill.symbol) st.counter hgi
  constructor
  · simp only [processFill, hupd.1]
  · intro sp hsp
    exact hupd.2 sp hsp

lemma foldl_processFill_now_invariant (now1 now2 : ℕ)
    (l : List BackpackFill) :
    ∀ st : ScanState, StateInv st →
      (∀ f ∈ l, EPSILON ≤ f.quantity) →
      l.foldl (processFill now1) st = l.foldl (processFill now2) st := by
  induction l with
  | nil => intro st _ _; rfl
  | cons f fs ih =>
    intro st hst hq
    have hstep := processFill_now_invariant st f now1 now2 hst
      (hq f (List.mem_cons_self f fs))
    rw [List.foldl_cons, List.foldl_cons, ← hstep.1]
    exact ih _ hstep.2 (fun g hg => hq g (List.mem_cons_of_mem f hg))

end NowInvariance

/-- C7 (amended): `reconstructPositions` is a pure function of its fill
list and of the wall-clock instant used by the `exitTime || new Date()`
fallback; whenever every fill's quantity is at least the tolerance
EPSILON (in particular for all realistic positive quantities) no closed
segment can lack a closing-side fill, the fallback is never taken, and
two runs at different times are bit-identical.  (A fill with quantity
below EPSILON can close a segment with no closing-side fill, in which
case `exitTime` is the wall clock and runs differ — see the
counterexample.) -/
theorem C7_determinism (now1 now2 : ℕ) (l : List BackpackFill)
    (h : ∀ f ∈ l, EPSILON ≤ f.quantity) :
    reconstructPositions now1 l = reconstructPositions now2 l := by
  have hsorted : ∀ f ∈ sortFills l, EPSILON ≤ f.quantity :=
    fun f hf => h f ((sortFills_perm l).mem_iff.mp hf)
  rw [reconstructPositions, reconstructPositions, reconstructSorted,
    reconstructSorted, scanFills, scanFills,
    foldl_processFill_now_invariant now1 now2 (sortFills l) ⟨[], 1⟩
      (fun sp hsp => absurd hsp (List.not_mem_nil sp)) hsorted]

/-- C7 witness: a normal round trip evaluated at two different clock
instants gives the same result. -/
theorem C7_determinism_witness :
    reconstructPositions 17
      [⟨"BTC_USDC_PERP", Side.Bid, 1, 100, 0, 100⟩,
       ⟨"BTC_USDC_PERP", Side.Ask, 1, 110, 0, 200⟩] =
    reconstructPositions 2026
      [⟨"BTC_USDC_PERP", Side.Bid, 1, 100, 0, 100⟩,
       ⟨"BTC_USDC_PERP", Side.Ask, 1, 110, 0, 200⟩] :=
  C7_determinism 17 2026 _
    (by intro f hf; fin_cases hf <;> norm_num [EPSILON])

/-- C7 counterexample: a single Bid fill of quantity 1e-8 (inside the
tolerance) closes a degenerate segment with no Ask fill; its `exitTime`
is the wall clock, so two runs at instants 0 and 1 differ — the output
is not a pure function of the input fills alone. -/
theorem C7_determinism_counterexample :
    reconstructPositions 0
      [⟨"BTC_USDC_PERP", Side.Bid, 1/100000000, 100, 0, 5⟩] ≠
    reconstructPositions 1
      [⟨"BTC_USDC_PERP", Side.Bid, 1/100000000, 100, 0, 5⟩] := by
  intro h
  have h2 := congrArg
    (fun a => a.completedPositions.map (fun p => p.exitTime)) h
  norm_num [reconstructPositions, reconstructSorted, scanFills, sortFills,
    processFill, getOrInit, hasLedger, updateLedger, stepLedger,
    createCompletedPosition, buildPosition, buildAcc, buildStep, entryUpdate,
    signedQty, emptyLedger, EPSILON, sortPositions, pnlSum, feeSum,
    Side.isBid, List.insertionSort, List.orderedInsert, abs_lt,
    fillLE, posLE] at h2

section PerSymbol

/-- A position with its (globally assigned) id erased, for comparing
positions up to the shared id counter. -/
def stripId (p : CompletedPosition) : CompletedPosition := { p with id := 0 }

/-- Pure per-symbol model of the scan: the running net quantity, the
buffered open segment, and the closed segments already built into
(id-0) positions. -/
structure SegState where
  net : ℚ
  buf : List BackpackFill
  closed : List CompletedPosition
deriving DecidableEq, Repr

/-- Per-symbol counterpart of `stepLedger`, building positions with
id 0. -/
def segStep (now : ℕ) (st : SegState) (fill : BackpackFill) : SegState :=
  let buf := st.buf ++ [fill]
  let net := st.net + signedQty fill
  if |net| < EPSILON then
    ⟨0, [], st.closed ++ (createCompletedPosition 0 buf now).toList⟩
  else
    ⟨net, buf, st.closed⟩

/-- Run the per-symbol model over a (single-symbol) fill list. -/
def segRun (now : ℕ) (fills : List BackpackFill) : SegState :=
  fills.foldl (segStep now) ⟨0, [], []⟩

/-- Projection of a ledger onto the per-symbol model. -/
def segProj (sp : SymbolPosition) : SegState :=
  ⟨sp.netQuantity, sp.openFills, sp.completedPositions.map stripId⟩

lemma stripId_buildPosition (c : ℕ) (f : BackpackFill) (r : List BackpackFill)
    (now : ℕ) : stripId (buildPosition c f r now) = buildPosition 0 f r now := rfl

lemma create_toList_map_stripId (c : ℕ) (l : List BackpackFill) (now : ℕ) :
    ((createCompletedPosition c l now).toList).map stripId =
      (createCompletedPosition 0 l now).toList := by
  cases l <;> rfl

lemma stepLedger_symbol (now c : ℕ) (sp : SymbolPosition) (f : BackpackFill) :
    (stepLedger now c sp f).1.symbol = sp.symbol := by
  rw [stepLedger]
  split <;> rfl

lemma segProj_stepLedger (now c : ℕ) (sp : SymbolPosition) (f : BackpackFill) :
    segProj (stepLedger now c sp f).1 = segStep now (segProj sp) f := by
  by_cases hc : |sp.netQuantity + signedQty f| < EPSILON
  · simp only [stepLedger, segStep, segProj, if_pos hc, List.map_append,
      create_toList_map_stripId]
  · simp only [stepLedger, segStep, segProj, if_neg hc]

/-- `symbolPositions.get(symbol)`: the (first) ledger of a symbol. -/
def findLedger (ledgers : List SymbolPosition) (symbol : String) :
    Option SymbolPosition :=
  ledgers.find? (fun sp => decide (sp.symbol = symbol))

lemma findLedger_append_of_none {l : List SymbolPosition} {s : String}
    (h : findLedger l s = none) (l2 : List SymbolPosition) :
    findLedger (l ++ l2) s = findLedger l2 s := by
  induction l with
  | nil => rfl
  | cons sp rest ih =>
    by_cases hs : sp.symbol = s
    · exfalso
      rw [findLedger, List.find?_cons, decide_eq_true hs] at h
      exact Option.noConfusion h
    · rw [findLedger, List.cons_append, List.find?_cons,
        decide_eq_false hs]
      rw [findLedger, List.find?_cons, decide_eq_false hs] at h
      exact ih h

lemma findLedger_append_ne {x : SymbolPosition} {s : String}
    (hx : x.symbol ≠ s) (l : List SymbolPosition) :
    findLedger (l ++ [x]) s = findLedger l s := by
  induction l with
  | nil =>
    rw [List.nil_append, findLedger, List.find?_cons, decide_eq_false hx]
    rfl
  | cons sp rest ih =>
    by_cases hs : sp.symbol = s
    · rw [findLedger, List.cons_append, List.find?_cons, decide_eq_true hs,
        findLedger, List.find?_cons, decide_eq_true hs]
    · rw [findLedger, List.cons_append, List.find?_cons, decide_eq_false hs,
        findLedger, List.find?_cons, decide_eq_false hs]
      exact ih

lemma hasLedger_iff_findLedger_isSome (l : List SymbolPosition) (s : String) :
    hasLedger l s = true ↔ (findLedger l s).isSome := by
  rw [hasLedger, List.any_eq_true, findLedger, List.find?_isSome]

lemma findLedger_getOrInit_ne {s0 s : String} (h : s0 ≠ s)
    (l : List SymbolPosition) :
    findLedger (getOrInit l s0) s = findLedger l s := by
  rw [getOrInit]
  split
  · rfl
  · exact findLedger_append_ne (fun hc => h hc) l

lemma findLedger_getOrInit_self (l : List SymbolPosition) (s : String) :
    findLedger (getOrInit l s) s =
      some ((findLedger l s).getD (emptyLedger s)) := by
  rw [getOrInit]
  split
  · rename_i hhas
    obtain ⟨sp, hsp⟩ := Option.isSome_iff_exists.mp
      ((hasLedger_iff_findLedger_isSome l s).mp hhas)
    rw [hsp]
    rfl
  · rename_i hhas
    have hnone : findLedger l s = none := by
      cases hfind : findLedger l s with
      | none => rfl
      | some sp =>
        exfalso
        exact hhas ((hasLedger_iff_findLedger_isSome l s).mpr
          (by rw [hfind]; rfl))
    rw [findLedger_append_of_none hnone, hnone]
    simp [findLedger, emptyLedger]

lemma updateLedger_findLedger_self (now : ℕ) (f : BackpackFill) :
    ∀ (l : List SymbolPosition) (c : ℕ) (sp : SymbolPosition),
      findLedger l f.symbol = some sp →
      findLedger (updateLedger now f l c).1 f.symbol =
        some (stepLedger now c sp f).1 := by
  intro l
  induction l with
  | nil =>
    intro c sp h
    exact Option.noConfusion h
  | cons hd rest ih =>
    intro c sp h
    by_cases hs : hd.symbol = f.symbol
    · rw [findLedger, List.find?_cons, decide_eq_true hs] at h
      obtain rfl : hd = sp := Option.some_injective _ h
      rw [updateLedger, if_pos hs, findLedger, List.find?_cons,
        decide_eq_true (by rw [stepLedger_symbol]; exact hs)]
    · rw [findLedger, List.find?_cons, decide_eq_false hs] at h
      rw [updateLedger, if_neg hs, findLedger, List.find?_cons,
        decide_eq_false hs]
      exact ih c sp h

lemma updateLedger_findLedger_ne (now : ℕ) (f : BackpackFill) {s : String}
    (hs : s ≠ f.symbol) :
    ∀ (l : List SymbolPosition) (c : ℕ),
      findLedger (updateLedger now f l c).1 s = findLedger l s := by
  intro l
  induction l with
  | nil => intro c; rfl
  | cons hd rest ih =>
    intro c
    by_cases hh : hd.symbol = f.symbol
    · have h1 : ¬ (stepLedger now c hd f).1.symbol = s := by
        rw [stepLedger_symbol, hh]
        exact fun hc => hs hc.symm
      have h2 : ¬ hd.symbol = s := by
        rw [hh]; exact fun hc => hs hc.symm
      rw [updateLedger, if_pos hh, findLedger, List.find?_cons,
        decide_eq_false h1, findLedger, List.find?_cons, decide_eq_false h2]
    · rw [updateLedger, if_neg hh, findLedger, List.find?_cons]
      by_cases h2 : hd.symbol = s
      · rw [decide_eq_true h2, findLedger, List.find?_cons, decide_eq_true h2]
      · rw [decide_eq_false h2, findLedger, List.find?_cons, decide_eq_false h2]
        exact ih c

/-- The per-symbol view of a scan state. -/
def ledgerSeg (st : ScanState) (s : String) : SegState :=
  match findLedger st.ledgers s with
  | none => ⟨0, [], []⟩
  | some sp => segProj sp

lemma ledgerSeg_processFill (now : ℕ) (st : ScanState) (f : BackpackFill)
    (s : String) :
    ledgerSeg (processFill now st f) s =
      if f.symbol = s then segStep now (ledgerSeg st s) f
      else ledgerSeg st s := by
  by_cases hfs : f.symbol = s
  · subst hfs
    rw [if_pos rfl]
    have hini := findLedger_getOrInit_self st.ledgers f.symbol
    have hupd := updateLedger_findLedger_self now f
      (getOrInit st.ledgers f.symbol) st.counter
      ((findLedger st.ledgers f.symbol).getD (emptyLedger f.symbol)) hini
    have hfind2 : findLedger (processFill now st f).ledgers f.symbol =
        some (stepLedger now st.counter
          ((findLedger st.ledgers f.symbol).getD (emptyLedger f.symbol)) f).1 := by
      rw [processFill]
      exact hupd
    simp only [ledgerSeg, hfind2, segProj_stepLedger]
    cases hfind : findLedger st.ledgers f.symbol with
    | none => rfl
    | some sp => rfl
  · rw [if_neg hfs, ledgerSeg, ledgerSeg]
    have : findLedger (processFill now st f).ledgers s =
        findLedger st.ledgers s := by
      rw [processFill]
      rw [updateLedger_findLedger_ne now f (fun hc => hfs hc.symm)]
      exact findLedger_getOrInit_ne hfs st.ledgers
    rw [this]

/-- The per-symbol projection of the global scan equals the pure
per-symbol model run on that symbol's subsequence. -/
lemma ledgerSeg_foldl (now : ℕ) (l : List BackpackFill) :
    ∀ (st : ScanState) (s : String),
      ledgerSeg (l.foldl (processFill now) st) s =
        (l.filter (fun f => decide (f.symbol = s))).foldl (segStep now)
          (ledgerSeg st s) := by
  induction l with
  | nil => intro st s; rfl
  | cons f fs ih =>
    intro st s
    rw [List.foldl_cons, ih, List.filter_cons]
    by_cases hfs : f.symbol = s
    · rw [if_pos (decide_eq_true hfs), List.foldl_cons,
        ledgerSeg_processFill, if_pos hfs]
    · rw [if_neg (by rw [decide_eq_false hfs]; exact Bool.false_ne_true),
        ledgerSeg_processFill, if_neg hfs]

/-- The per-symbol view of the completed scan. -/
lemma ledgerSeg_scanFills (now : ℕ) (l : List BackpackFill) (s : String) :
    ledgerSeg (scanFills now l) s =
      segRun now (l.filter (fun f => decide (f.symbol = s))) := by
  rw [scanFills, ledgerSeg_foldl]
  rfl

end PerSymbol

section WellFormed

/-- Ownership invariant of a ledger: everything it buffers or has built
belongs to its symbol. -/
def WfLedger (sp : SymbolPosition) : Prop :=
  (∀ f ∈ sp.openFills, f.symbol = sp.symbol) ∧
  (∀ p ∈ sp.completedPositions,
    p.symbol = sp.symbol ∧ ∀ f ∈ p.fills, f.symbol = sp.symbol)

/-- Scan invariant: ledger keys are distinct (a JS `Map`) and every
ledger owns its contents. -/
def WfState (st : ScanState) : Prop :=
  (st.ledgers.map (fun sp => sp.symbol)).Nodup ∧
    ∀ sp ∈ st.ledgers, WfLedger sp

lemma create_append_mem (c : ℕ) (l : List BackpackFill) (x : BackpackFill)
    (now : ℕ) :
    ∀ p ∈ (createCompletedPosition c (l ++ [x]) now).toList,
      p.symbol = (l.headD x).symbol ∧ p.fills = l ++ [x] := by
  cases l with
  | nil =>
    intro p hp
    rw [List.nil_append] at hp ⊢
    rcases List.mem_singleton.mp hp with rfl
    exact ⟨rfl, rfl⟩
  | cons h t =>
    intro p hp
    rcases List.mem_singleton.mp hp with rfl
    exact ⟨rfl, rfl⟩

lemma stepLedger_wf (now c : ℕ) (sp : SymbolPosition) (f : BackpackFill)
    (hwf : WfLedger sp) (hf : f.symbol = sp.symbol) :
    WfLedger (stepLedger now c sp f).1 := by
  have hbuf : ∀ g ∈ sp.openFills ++ [f], g.symbol = sp.symbol := by
    intro g hg
    rcases List.mem_append.mp hg with h | h
    · exact hwf.1 g h
    · rw [List.mem_singleton.mp h]; exact hf
  have hhead : ((sp.openFills).headD f).symbol = sp.symbol := by
    cases hof : sp.openFills with
    | nil => exact hf
    | cons a t =>
      have := hwf.1 a (by rw [hof]; exact List.mem_cons_self a t)
      simpa using this
  rw [stepLedger]
  split
  · refine ⟨fun g hg => absurd hg (List.not_mem_nil g), ?_⟩
    intro p hp
    rcases List.mem_append.mp hp with h | h
    · exact hwf.2 p h
    · obtain ⟨hsym, hfills⟩ := create_append_mem c sp.openFills f now p h
      refine ⟨by rw [hsym]; exact hhead, ?_⟩
      intro g hg
      rw [hfills] at hg
      exact hbuf g hg
  · exact ⟨hbuf, hwf.2⟩

lemma updateLedger_map_symbol (now : ℕ) (f : BackpackFill) :
    ∀ (l : List SymbolPosition) (c : ℕ),
      ((updateLedger now f l c).1.map (fun sp => sp.symbol)) =
        l.map (fun sp => sp.symbol) := by
  intro l
  induction l with
  | nil => intro c; rfl
  | cons hd rest ih =>
    intro c
    by_cases hh : hd.symbol = f.symbol
    · rw [updateLedger, if_pos hh, List.map_cons, List.map_cons,
        stepLedger_symbol]
    · rw [updateLedger, if_neg hh, List.map_cons, List.map_cons, ih]

lemma updateLedger_wf (now : ℕ) (f : BackpackFill) :
    ∀ (l : List SymbolPosition) (c : ℕ),
      (∀ sp ∈ l, WfLedger sp) →
      ∀ sp ∈ (updateLedger now f l c).1, WfLedger sp := by
  intro l
  induction l with
  | nil => intro c _ sp hsp; exact absurd hsp (List.not_mem_nil sp)
  | cons hd rest ih =>
    intro c hwf sp hsp
    by_cases hh : hd.symbol = f.symbol
    · rw [updateLedger, if_pos hh] at hsp
      rcases List.mem_cons.mp hsp with rfl | h
      · exact stepLedger_wf now c hd f (hwf hd (List.mem_cons_self hd rest)) hh.symm
      · exact hwf sp (List.mem_cons_of_mem hd h)
    · rw [updateLedger, if_neg hh] at hsp
      rcases List.mem_cons.mp hsp with rfl | h
      · exact hwf sp (List.mem_cons_self sp rest)
      · exact ih c (fun sq hsq => hwf sq (List.mem_cons_of_mem hd hsq)) sp h

lemma hasLedger_false_not_mem {l : List SymbolPosition} {s : String}
    (h : ¬ hasLedger l s = true) : s ∉ l.map (fun sp => sp.symbol) := by
  intro hmem
  obtain ⟨sp, hsp, hsym⟩ := List.mem_map.mp hmem
  exact h (List.any_eq_true.mpr ⟨sp, hsp, decide_eq_true hsym⟩)

lemma getOrInit_wf (l : List SymbolPosition) (s : String)
    (hn : (l.map (fun sp => sp.symbol)).Nodup)
    (hwf : ∀ sp ∈ l, WfLedger sp) :
    ((getOrInit l s).map (fun sp => sp.symbol)).Nodup ∧
      ∀ sp ∈ getOrInit l s, WfLedger sp := by
  rw [getOrInit]
  split
  · exact ⟨hn, hwf⟩
  · rename_i hhas
    constructor
    · rw [List.map_append]
      rw [List.nodup_append]
      refine ⟨hn, List.nodup_singleton _, ?_⟩
      intro a ha hb
      rcases List.mem_singleton.mp hb with rfl
      exact hasLedger_false_not_mem hhas ha
    · intro sp hsp
      rcases List.mem_append.mp hsp with h | h
      · exact hwf sp h
      · rw [List.mem_singleton.mp h]
        exact ⟨fun g hg => absurd hg (List.not_mem_nil g),
          fun p hp => absurd hp (List.not_mem_nil p)⟩

lemma processFill_wf (now : ℕ) (st : ScanState) (f : BackpackFill)
    (h : WfState st) : WfState (processFill now st f) := by
  obtain ⟨hn, hwf⟩ := getOrInit_wf st.ledgers f.symbol h.1 h.2
  constructor
  · rw [processFill]
    rw [updateLedger_map_symbol]
    exact hn
  · intro sp hsp
    exact updateLedger_wf now f (getOrInit st.ledgers f.symbol) st.counter hwf sp hsp

lemma scanFills_wf (now : ℕ) (l : List BackpackFill) :
    WfState (scanFills now l) := by
  rw [scanFills]
  have : ∀ (st : ScanState), WfState st → WfState (l.foldl (processFill now) st) := by
    induction l with
    | nil => intro st h; exact h
    | cons f fs ih =>
      intro st h
      rw [List.foldl_cons]
      exact ih _ (processFill_wf now st f h)
  exact this ⟨[], 1⟩ ⟨List.nodup_nil, fun sp hsp => absurd hsp (List.not_mem_nil sp)⟩

/-- With distinct keys and symbol ownership, filtering the flattened
position lists for a symbol yields exactly that symbol's ledger
positions. -/
lemma filter_flatten_positions (s : String) :
    ∀ (ledgers : List SymbolPosition),
      ((ledgers.map (fun sp => sp.symbol)).Nodup) →
      (∀ sp ∈ ledgers, WfLedger sp) →
      (((ledgers.map (fun sp => sp.completedPositions)).flatten).filter
        (fun p => decide (p.symbol = s))) =
        (match findLedger ledgers s with
          | some sp => sp.completedPositions
          | none => []) := by
  intro ledgers
  induction ledgers with
  | nil => intro _ _; rfl
  | cons hd rest ih =>
    intro hn hwf
    have hnr : (rest.map (fun sp => sp.symbol)).Nodup := (List.nodup_cons.mp hn).2
    have hwr : ∀ sp ∈ rest, WfLedger sp :=
      fun sp hsp => hwf sp (List.mem_cons_of_mem hd hsp)
    rw [List.map_cons, List.flatten_cons, List.filter_append]
    by_cases hs : hd.symbol = s
    · have hfilter_hd : hd.completedPositions.filter
          (fun p => decide (p.symbol = s)) = hd.completedPositions := by
        apply List.filter_eq_self.mpr
        intro p hp
        exact decide_eq_true (by
          rw [((hwf hd (List.mem_cons_self hd rest)).2 p hp).1, hs])
      have hrest_nil : ((rest.map (fun sp => sp.completedPositions)).flatten).filter
          (fun p => decide (p.symbol = s)) = [] := by
        apply List.filter_eq_nil_iff.mpr
        intro p hp
        obtain ⟨cp, hcp, hpcp⟩ := List.mem_flatten.mp hp
        obtain ⟨sq, hsq, rfl⟩ := List.mem_map.mp hcp
        have hsym := ((hwr sq hsq).2 p hpcp).1
        have hne : sq.symbol ≠ s := by
          intro hc
          have : sq.symbol ∈ rest.map (fun sp => sp.symbol) :=
            List.mem_map.mpr ⟨sq, hsq, rfl⟩
          rw [hc, ← hs] at this
          exact (List.nodup_cons.mp hn).1 this
        rw [decide_eq_false (by rw [hsym]; exact hne)]
        exact Bool.false_ne_true
      rw [hfilter_hd, hrest_nil, List.append_nil, findLedger,
        List.find?_cons, decide_eq_true hs]
    · have hfilter_hd : hd.completedPositions.filter
          (fun p => decide (p.symbol = s)) = [] := by
        apply List.filter_eq_nil_iff.mpr
        intro p hp
        rw [decide_eq_false (by
          rw [((hwf hd (List.mem_cons_self hd rest)).2 p hp).1]; exact hs)]
        exact Bool.false_ne_true
      rw [hfilter_hd, List.nil_append, findLedger, List.find?_cons,
        decide_eq_false hs]
      exact ih hnr hwr

/-- A ledger in a distinct-key list is what `findLedger` returns for its
symbol. -/
lemma findLedger_of_mem {ledgers : List SymbolPosition}
    (hn : (ledgers.map (fun sp => sp.symbol)).Nodup)
    {sp : SymbolPosition} (hsp : sp ∈ ledgers) :
    findLedger ledgers sp.symbol = some sp := by
  induction ledgers with
  | nil => exact absurd hsp (List.not_mem_nil sp)
  | cons hd rest ih =>
    rcases List.mem_cons.mp hsp with rfl | h
    · rw [findLedger, List.find?_cons, decide_eq_true rfl]
    · have hne : hd.symbol ≠ sp.symbol := by
        intro hc
        have : sp.symbol ∈ rest.map (fun sq => sq.symbol) :=
          List.mem_map.mpr ⟨sp, h, rfl⟩
        rw [← hc] at this
        exact (List.nodup_cons.mp hn).1 this
      rw [findLedger, List.find?_cons, decide_eq_false hne]
      exact ih (List.nodup_cons.mp hn).2 h

end WellFormed

section ResultProjections

lemma reconstructPositions_completedPositions (now : ℕ) (l : List BackpackFill) :
    (reconstructPositions now l).completedPositions =
      sortPositions (((scanFills now (sortFills l)).ledgers.map
        (fun sp => sp.completedPositions)).flatten) := rfl

lemma reconstructPositions_symbolBreakdown (now : ℕ) (l : List BackpackFill) :
    (reconstructPositions now l).summary.symbolBreakdown =
      (scanFills now (sortFills l)).ledgers.map (fun sp =>
        (sp.symbol, SymbolStats.mk sp.completedPositions.length
          (pnlSum sp.completedPositions))) := rfl

lemma sortPositions_perm (ps : List CompletedPosition) :
    (sortPositions ps).Perm ps :=
  List.perm_insertionSort posLE ps

end ResultProjections

/-- C5 (amended): a symbol for which the scan never fires a closure
(its trailing segment stays open, e.g. a single unmatched Buy)
contributes zero completed positions, nothing to the summary totals
(every emitted position belongs to another symbol) and a zero
`symbolBreakdown` entry.  The open segment's partial state (net
quantity, buffered fills) is NOT part of the returned
`PositionAnalysis`: the result type has no open-segment report and the
ledger is discarded, as the counterexample shows. -/
theorem C5_open_segment_not_reported (now : ℕ) (l : List BackpackFill)
    (s : String)
    (hopen : (segRun now
      ((sortFills l).filter (fun f => decide (f.symbol = s)))).closed = []) :
    (reconstructPositions now l).completedPositions.filter
      (fun p => decide (p.symbol = s)) = [] ∧
    (∀ p ∈ (reconstructPositions now l).completedPositions, p.symbol ≠ s) ∧
    (∀ e ∈ (reconstructPositions now l).summary.symbolBreakdown,
      e.1 = s → e.2 = SymbolStats.mk 0 0) := by
  have hwf := scanFills_wf now (sortFills l)
  have hseg := ledgerSeg_scanFills now (sortFills l) s
  have hclosed : (ledgerSeg (scanFills now (sortFills l)) s).closed = [] := by
    rw [hseg, hopen]
  have hledger : ∀ sp : SymbolPosition,
      findLedger (scanFills now (sortFills l)).ledgers s = some sp →
      sp.completedPositions = [] := by
    intro sp hfind
    rw [ledgerSeg, hfind] at hclosed
    exact List.map_eq_nil_iff.mp hclosed
  have hfilterA : (((scanFills now (sortFills l)).ledgers.map
      (fun sp => sp.completedPositions)).flatten).filter
        (fun p => decide (p.symbol = s)) = [] := by
    rw [filter_flatten_positions s (scanFills now (sortFills l)).ledgers hwf.1 hwf.2]
    cases hfind : findLedger (scanFills now (sortFills l)).ledgers s with
    | none => rfl
    | some sp => exact hledger sp hfind
  have hfilter_out : (reconstructPositions now l).completedPositions.filter
      (fun p => decide (p.symbol = s)) = [] := by
    rw [reconstructPositions_completedPositions]
    have hperm := (sortPositions_perm (((scanFills now (sortFills l)).ledgers.map
      (fun sp => sp.completedPositions)).flatten)).filter
      (fun p => decide (p.symbol = s))
    rw [hfilterA] at hperm
    exact List.Perm.eq_nil hperm
  refine ⟨hfilter_out, ?_, ?_⟩
  · intro p hp hps
    have := List.filter_eq_nil_iff.mp hfilter_out p hp
    exact this (decide_eq_true hps)
  · intro e he hes
    rw [reconstructPositions_symbolBreakdown] at he
    obtain ⟨sp, hsp, rfl⟩ := List.mem_map.mp he
    have hes' : sp.symbol = s := hes
    have hfind : findLedger (scanFills now (sortFills l)).ledgers s = some sp := by
      have := findLedger_of_mem hwf.1 hsp
      rw [hes'] at this
      exact this
    have hcp := hledger sp hfind
    simp [hcp, pnlSum]

/-- C5 witness: a lone unmatched Buy yields no completed position. -/
theorem C5_open_segment_not_reported_witness :
    (reconstructPositions 0
      [⟨"BTC_USDC_PERP", Side.Bid, 1, 100, 0, 5⟩]).completedPositions.filter
      (fun p => decide (p.symbol = "BTC_USDC_PERP")) = [] :=
  (C5_open_segment_not_reported 0
    [⟨"BTC_USDC_PERP", Side.Bid, 1, 100, 0, 5⟩] "BTC_USDC_PERP"
    (by norm_num [segRun, segStep, sortFills, List.insertionSort,
      List.orderedInsert, signedQty, EPSILON, abs_lt])).1

/-- C5 counterexample: two single-Buy inputs whose open segments have
different net quantities (1 vs 2) produce literally equal
`PositionAnalysis` values, so the open segment (its partial state / net
quantity) is not reported anywhere in the result returned by
`reconstructPositions`, contradicting the claim's reporting clause. -/
theorem C5_open_segment_counterexample :
    reconstructPositions 0 [⟨"BTC_USDC_PERP", Side.Bid, 1, 100, 0, 5⟩] =
      reconstructPositions 0 [⟨"BTC_USDC_PERP", Side.Bid, 2, 100, 0, 5⟩] ∧
    (reconstructPositions 0
      [⟨"BTC_USDC_PERP", Side.Bid, 1, 100, 0, 5⟩]).completedPositions = [] ∧
    (1 : ℚ) ≠ 2 := by
  refine ⟨?_, ?_, by norm_num⟩ <;>
    norm_num [reconstructPositions, reconstructSorted, scanFills, sortFills,
      processFill, getOrInit, hasLedger, updateLedger, stepLedger,
      createCompletedPosition, signedQty, emptyLedger, EPSILON, sortPositions,
      pnlSum, feeSum, List.insertionSort, List.orderedInsert, abs_lt, fillLE,
      posLE]

section Stability

instance : IsTotal CompletedPosition posLE :=
  ⟨fun a b => Nat.le_total a.entryTime b.entryTime⟩

instance : IsTrans CompletedPosition posLE :=
  ⟨fun _ _ _ h1 h2 => Nat.le_trans h1 h2⟩

/-- Inserting an element that is below the whole list puts it in front. -/
lemma orderedInsert_of_forall_rel {α : Type*} {r : α → α → Prop}
    [DecidableRel r] {a : α} {l : List α} (h : ∀ x ∈ l, r a x) :
    List.orderedInsert r a l = a :: l := by
  cases l with
  | nil => rfl
  | cons b t => rw [List.orderedInsert, if_pos (h b (List.mem_cons_self b t))]

/-- Filtering commutes with ordered insertion into a sorted list. -/
lemma filter_orderedInsert {α : Type*} (r : α → α → Prop) [DecidableRel r]
    [IsTrans α r] (p : α → Bool) (a : α) :
    ∀ l : List α, List.Sorted r l →
      (List.orderedInsert r a l).filter p =
        if p a then List.orderedInsert r a (l.filter p) else l.filter p := by
  intro l
  induction l with
  | nil =>
    intro _
    by_cases hp : p a <;> simp [List.orderedInsert, hp]
  | cons b t ih =>
    intro hl
    have hbt : ∀ x ∈ t, r b x := (List.sorted_cons.mp hl).1
    have ht : List.Sorted r t := (List.sorted_cons.mp hl).2
    by_cases hr : r a b
    · rw [List.orderedInsert, if_pos hr]
      have hall : ∀ x ∈ (b :: t).filter p, r a x := by
        intro x hx
        have hx2 := List.mem_of_mem_filter hx
        rcases List.mem_cons.mp hx2 with rfl | hxt
        · exact hr
        · exact Trans.trans hr (hbt x hxt)
      by_cases hp : p a
      · rw [if_pos hp, orderedInsert_of_forall_rel hall, List.filter_cons,
          if_pos hp]
      · rw [if_neg hp, List.filter_cons, if_neg hp]
    · rw [List.orderedInsert, if_neg hr, List.filter_cons]
      by_cases hpb : p b
      · rw [if_pos hpb, ih ht]
        by_cases hp : p a
        · rw [if_pos hp, if_pos hp, List.filter_cons, if_pos hpb,
            List.orderedInsert, if_neg hr]
        · rw [if_neg hp, if_neg hp, List.filter_cons, if_pos hpb]
      · rw [if_neg hpb, ih ht]
        by_cases hp : p a
        · rw [if_pos hp, if_pos hp, List.filter_cons, if_neg hpb]
        · rw [if_neg hp, if_neg hp, List.filter_cons, if_neg hpb]

/-- A stable insertion sort commutes with filtering: the sorted order of
the elements a filter keeps does not depend on the elements it drops. -/
lemma insertionSort_filter {α : Type*} (r : α → α → Prop) [DecidableRel r]
    [IsTotal α r] [IsTrans α r] (p : α → Bool) (l : List α) :
    (List.insertionSort r l).filter p = List.insertionSort r (l.filter p) := by
  induction l with
  | nil => rfl
  | cons x xs ih =>
    simp only [List.insertionSort]
    rw [filter_orderedInsert r p x (List.insertionSort r xs)
        (List.sorted_insertionSort r xs),
      List.filter_cons]
    by_cases hp : p x
    · rw [if_pos hp, if_pos hp, ih]
      rfl
    · rw [if_neg hp, if_neg hp, ih]

/-- Stability of the input sort: filtering fills commutes with the
timestamp sort. -/
lemma sortFills_filter (p : BackpackFill → Bool) (l : List BackpackFill) :
    (sortFills l).filter p = sortFills (l.filter p) :=
  insertionSort_filter fillLE p l

/-- Stability of the output sort: filtering positions commutes with the
entry-time sort. -/
lemma sortPositions_filter (p : CompletedPosition → Bool)
    (ps : List CompletedPosition) :
    (sortPositions ps).filter p = sortPositions (ps.filter p) :=
  insertionSort_filter posLE p ps

/-- Erasing ids commutes with ordered insertion by entry time (the id
does not participate in the comparison). -/
lemma orderedInsert_map_stripId (a : CompletedPosition) :
    ∀ l : List CompletedPosition,
      List.orderedInsert posLE (stripId a) (l.map stripId) =
        (List.orderedInsert posLE a l).map stripId := by
  intro l
  induction l with
  | nil => rfl
  | cons b t ih =>
    by_cases h : posLE a b
    · have h2 : posLE (stripId a) (stripId b) := h
      rw [List.map_cons, List.orderedInsert, if_pos h2, List.orderedInsert,
        if_pos h, List.map_cons, List.map_cons]
    · have h2 : ¬ posLE (stripId a) (stripId b) := h
      rw [List.map_cons, List.orderedInsert, if_neg h2, List.orderedInsert,
        if_neg h, List.map_cons, ih]

/-- Erasing ids commutes with the output sort. -/
lemma sortPositions_map_stripId (l : List CompletedPosition) :
    sortPositions (l.map stripId) = (sortPositions l).map stripId := by
  induction l with
  | nil => rfl
  | cons x xs ih =>
    show List.orderedInsert posLE (stripId x)
        (List.insertionSort posLE (xs.map stripId)) =
      (List.orderedInsert posLE x (List.insertionSort posLE xs)).map stripId
    rw [show List.insertionSort posLE (xs.map stripId) =
        (List.insertionSort posLE xs).map stripId from ih,
      orderedInsert_map_stripId]

end Stability

section Isolation

/-- Positions in the output never mix symbols. -/
lemma out_fills_own_symbol (now : ℕ) (L : List BackpackFill) :
    ∀ p ∈ (reconstructPositions now L).completedPositions,
      ∀ f ∈ p.fills, f.symbol = p.symbol := by
  intro p hp
  rw [reconstructPositions_completedPositions] at hp
  have hp2 := ((sortPositions_perm _).mem_iff).mp hp
  obtain ⟨cp, hcp, hpcp⟩ := List.mem_flatten.mp hp2
  obtain ⟨sp, hsp, rfl⟩ := List.mem_map.mp hcp
  have hwf := scanFills_wf now (sortFills L)
  have h := (hwf.2 sp hsp).2 p hpcp
  intro f hf
  exact (h.2 f hf).trans h.1.symm

/-- The id-stripped positions of one symbol in the final output are
exactly the entry-time-sorted closed positions of the pure per-symbol
model run on that symbol's chronological fill subsequence.  Only the
stability of the sorts is used — no assumption on timestamps. -/
lemma stripped_filtered_output (now : ℕ) (L : List BackpackFill) (s : String) :
    ((reconstructPositions now L).completedPositions.filter
        (fun p => decide (p.symbol = s))).map stripId =
      sortPositions ((segRun now ((sortFills L).filter
        (fun f => decide (f.symbol = s)))).closed) := by
  have hwf := scanFills_wf now (sortFills L)
  have hB : (match findLedger (scanFills now (sortFills L)).ledgers s with
      | some sp => sp.completedPositions
      | none => ([] : List CompletedPosition)).map stripId =
      (ledgerSeg (scanFills now (sortFills L)) s).closed := by
    cases hfind : findLedger (scanFills now (sortFills L)).ledgers s with
    | none => simp [ledgerSeg, hfind]
    | some sp => simp [ledgerSeg, hfind, segProj]
  have hseg := ledgerSeg_scanFills now (sortFills L) s
  rw [reconstructPositions_completedPositions, sortPositions_filter,
    filter_flatten_positions s _ hwf.1 hwf.2, ← sortPositions_map_stripId,
    hB, hseg]

/-- Removing one symbol's fills leaves every other symbol's chronological
fill subsequence unchanged — unconditionally, timestamp ties included,
because the timestamp sort is stable. -/
lemma filter_symbol_sortFills_removal (l : List BackpackFill)
    {s s0 : String} (hne : s ≠ s0) :
    (sortFills (l.filter (fun f => decide (¬ f.symbol = s0)))).filter
      (fun f => decide (f.symbol = s)) =
    (sortFills l).filter (fun f => decide (f.symbol = s)) := by
  rw [sortFills_filter, sortFills_filter]
  congr 1
  rw [List.filter_filter]
  apply List.filter_congr
  intro x _
  by_cases hx : x.symbol = s
  · rw [decide_eq_true hx, Bool.true_and,
      decide_eq_true (show ¬ x.symbol = s0 by rw [hx]; exact hne)]
  · rw [decide_eq_false hx, Bool.false_and]

end Isolation


/-- C8 (amended): removing all fills of one symbol leaves every other
symbol's reconstructed positions unchanged in every field EXCEPT the
globally assigned `id` (which shifts because a single counter numbers
closures across all symbols — see the counterexample); this holds for
every input, timestamp ties included, because the stable sorts preserve
each remaining symbol's fill subsequence and its positions' order; and
no `CompletedPosition` ever contains fills of two different symbols. -/
theorem C8_symbol_isolation (now : ℕ) (l : List BackpackFill)
    (s s0 : String) (hne : s ≠ s0) :
    (((reconstructPositions now
        (l.filter (fun f => decide (¬ f.symbol = s0)))).completedPositions.filter
        (fun p => decide (p.symbol = s))).map stripId =
      ((reconstructPositions now l).completedPositions.filter
        (fun p => decide (p.symbol = s))).map stripId) ∧
    (∀ p ∈ (reconstructPositions now l).completedPositions,
      ∀ f ∈ p.fills, f.symbol = p.symbol) := by
  refine ⟨?_, out_fills_own_symbol now l⟩
  rw [stripped_filtered_output, stripped_filtered_output,
    filter_symbol_sortFills_removal l hne]

/-- C8 witness: a concrete two-symbol input whose BTC and ETH fills
share tied timestamps (t=1 and t=2 for both symbols); removing the BTC
fills still leaves the id-stripped ETH positions unchanged. -/
theorem C8_symbol_isolation_witness :
    ((reconstructPositions 0
        ([⟨"BTC_USDC_PERP", Side.Bid, 1, 100, 0, 1⟩,
          ⟨"BTC_USDC_PERP", Side.Ask, 1, 110, 0, 2⟩,
          ⟨"ETH_USDC_PERP", Side.Bid, 1, 10, 0, 1⟩,
          ⟨"ETH_USDC_PERP", Side.Ask, 1, 11, 0, 2⟩].filter
          (fun f => decide (¬ f.symbol = "BTC_USDC_PERP")))).completedPositions.filter
        (fun p => decide (p.symbol = "ETH_USDC_PERP"))).map stripId =
      ((reconstructPositions 0
        [⟨"BTC_USDC_PERP", Side.Bid, 1, 100, 0, 1⟩,
         ⟨"BTC_USDC_PERP", Side.Ask, 1, 110, 0, 2⟩,
         ⟨"ETH_USDC_PERP", Side.Bid, 1, 10, 0, 1⟩,
         ⟨"ETH_USDC_PERP", Side.Ask, 1, 11, 0, 2⟩]).completedPositions.filter
        (fun p => decide (p.symbol = "ETH_USDC_PERP"))).map stripId :=
  (C8_symbol_isolation 0
    [⟨"BTC_USDC_PERP", Side.Bid, 1, 100, 0, 1⟩,
     ⟨"BTC_USDC_PERP", Side.Ask, 1, 110, 0, 2⟩,
     ⟨"ETH_USDC_PERP", Side.Bid, 1, 10, 0, 1⟩,
     ⟨"ETH_USDC_PERP", Side.Ask, 1, 11, 0, 2⟩]
    "ETH_USDC_PERP" "BTC_USDC_PERP" (by decide)).1

/-- C8 counterexample: with a BTC round trip followed by an ETH round
trip, the ETH position carries id 2, but after removing the BTC fills
it carries id 1 — so the ETH positions are NOT unchanged in all fields,
refuting the claim as stated (the id field shifts with the shared
counter). -/
theorem C8_symbol_isolation_counterexample :
    ((reconstructPositions 0
        [⟨"BTC_USDC_PERP", Side.Bid, 1, 100, 0, 1⟩,
         ⟨"BTC_USDC_PERP", Side.Ask, 1, 110, 0, 2⟩,
         ⟨"ETH_USDC_PERP", Side.Bid, 1, 10, 0, 3⟩,
         ⟨"ETH_USDC_PERP", Side.Ask, 1, 11, 0, 4⟩]).completedPositions.filter
        (fun p => decide (p.symbol = "ETH_USDC_PERP"))).map (fun p => p.id) = [2] ∧
    ((reconstructPositions 0
        ([⟨"BTC_USDC_PERP", Side.Bid, 1, 100, 0, 1⟩,
          ⟨"BTC_USDC_PERP", Side.Ask, 1, 110, 0, 2⟩,
          ⟨"ETH_USDC_PERP", Side.Bid, 1, 10, 0, 3⟩,
          ⟨"ETH_USDC_PERP", Side.Ask, 1, 11, 0, 4⟩].filter
          (fun f => decide (¬ f.symbol = "BTC_USDC_PERP")))).completedPositions.filter
        (fun p => decide (p.symbol = "ETH_USDC_PERP"))).map (fun p => p.id) = [1] ∧
    (2 : ℕ) ≠ 1 := by
  have hBE : ¬ ("BTC_USDC_PERP" : String) = "ETH_USDC_PERP" := by decide
  have hEB : ¬ ("ETH_USDC_PERP" : String) = "BTC_USDC_PERP" := by decide
  refine ⟨?_, ?_, by norm_num⟩ <;>
    norm_num [reconstructPositions, reconstructSorted, scanFills, sortFills,
      processFill, getOrInit, hasLedger, updateLedger, stepLedger,
      createCompletedPosition, buildPosition, buildAcc, buildStep, entryUpdate,
      signedQty, emptyLedger, EPSILON, sortPositions, pnlSum, feeSum, Side.isBid,
      List.insertionSort, List.orderedInsert, abs_lt, fillLE, posLE, hBE, hEB]

end BackpackReads
